import Mathlib

/-!
Shallow embedding of `src/server.js` (astrocade-volleyball), an authoritative
WebSocket volleyball server.  The source file contains two variants of the
server separated by a document marker; the second variant (lines 412-845,
using a `side` field on clients) is embedded here.  The first variant
(lines 1-411, using a `team` field) is identical in all of the logic the
claims below are about: the join capacity check, the default-left team
assignment, the host-only checks of `assignTeam`/`kick`/`startGame` (with no
roster-size check), `removePlayerFromRoom`, and the tick physics; it differs
only in field naming and in the payload of a few broadcasts.

Numbers are modelled as `ℚ` (the JS numbers involved are all exact decimal
fractions; no rounding beyond `Math.round`, modelled by `round`).  The JS
`Map` objects (`rooms` and roster maps) preserve insertion order and are
modelled as lists; `Map.set` on an existing key replaces in place, `Map.set`
on a new key appends.  WebSocket sends are modelled as an emitted event list.
-/

namespace Volley

/-- Court ground level: `const GROUND_Y = 1450` (src/server.js line 419). -/
def GROUND_Y : ℚ := 1450

/-- A team/side: the two court halves, `left` and `right`. -/
inductive Team where
  | left
  | right
deriving DecidableEq, Repr

/-- Most recent input flags of one player; `!!msg.left` etc. coerces the JS
fields to booleans (src/server.js lines 809-818). -/
structure InputState where
  left : Bool
  right : Bool
  jump : Bool
deriving DecidableEq, Repr

/-- A roster entry of `room.players` (the JS value `{id, name, side, team}`;
`side` and `team` always hold the same string, modelled as the single field
`team`).  `joinedAt` is a ghost timestamp recording the insertion order of
the JS `Map`; no operational definition ever reads it. -/
structure PlayerEntry where
  id : Nat
  name : String
  team : Team
  joinedAt : Nat
deriving DecidableEq, Repr

/-- A score pair `{left, right}`. -/
structure Scores where
  left : Nat
  right : Nat
deriving DecidableEq, Repr

/-- The volleyball state `room.vb = {x, y, vx, vy}`. -/
structure Ball where
  x : ℚ
  y : ℚ
  vx : ℚ
  vy : ℚ
deriving DecidableEq, Repr

/-- Room phase, `'lobby'` or `'playing'`. -/
inductive Phase where
  | lobby
  | playing
deriving DecidableEq, Repr

/-- One room (src/server.js lines 430-441). -/
structure Room where
  id : String
  max : Nat
  players : List PlayerEntry
  hostId : Option Nat
  phase : Phase
  scores : Scores
  vb : Ball
deriving DecidableEq, Repr

/-- One connected client record (src/server.js lines 613-626).  `name` is
initially `null` in JS, modelled as `""` (names play no role in any claim). -/
structure Client where
  id : Nat
  name : String
  roomId : Option String
  side : Team
  x : ℚ
  y : ℚ
  vx : ℚ
  vy : ℚ
  onGround : Bool
  input : InputState
deriving DecidableEq, Repr

/-- One entry of the `lobbyList` snapshot: `{id, count, max}`. -/
structure LobbyInfo where
  id : String
  count : Nat
  max : Nat
deriving DecidableEq, Repr

/-- One entry of the per-tick `state` broadcast. -/
structure StatePlayer where
  id : Nat
  name : String
  x : ℤ
  y : ℤ
  team : Team
deriving DecidableEq, Repr

/-- Server-to-client message payloads. -/
inductive Msg where
  | idAssign (id : Nat)
  | errorMsg (text : String)
  | joinedMsg (room : String) (hostId : Option Nat) (phase : Phase) (players : List PlayerEntry)
  | playerJoined (id : Nat) (name : String) (team : Team)
  | playerLeft (id : Nat) (reason : String)
  | playerUpdated (id : Nat) (name : String) (team : Team)
  | leftRoom (room : String)
  | kicked (reason : String)
  | gameStarted (players : List PlayerEntry) (vb : Ball) (scores : Scores)
  | stateFrame (players : List StatePlayer) (vbx vby : ℤ) (scores : Scores)
  | pong
deriving DecidableEq, Repr

/-- An emitted transport effect: a direct send, a room broadcast, the global
lobby-list broadcast, or a socket close (`ws.close()` in `kick`). -/
inductive Event where
  | sendTo (cid : Nat) (m : Msg)
  | roomCast (roomId : String) (m : Msg)
  | lobbyCast (lobbies : List LobbyInfo)
  | closeConn (cid : Nat)
deriving DecidableEq, Repr

/-- Whole-server state: the `rooms` object and the `clients` map, plus a
fresh-id counter modelling `uuidv4()` and a ghost counter for the roster
insertion timestamps. -/
structure ServerState where
  rooms : List Room
  clients : List Client
  nextClientId : Nat
  nextStamp : Nat
deriving DecidableEq, Repr

/-- A default lobby (src/server.js lines 422-441): capacity 4, empty roster,
no host, lobby phase, zero scores, ball at rest at (600, 300). -/
def mkLobby (name : String) : Room :=
  { id := name, max := 4, players := [], hostId := none, phase := Phase.lobby,
    scores := { left := 0, right := 0 },
    vb := { x := 600, y := 300, vx := 0, vy := 0 } }

/-- The startup state: the four `DEFAULT_LOBBIES` rooms and no clients. -/
def initState : ServerState :=
  { rooms := [mkLobby "Lobby-1", mkLobby "Lobby-2", mkLobby "Lobby-3", mkLobby "Lobby-4"],
    clients := [], nextClientId := 0, nextStamp := 0 }

/-- `rooms[roomId]` lookup. -/
def findRoom (s : ServerState) (rid : String) : Option Room :=
  s.rooms.find? (fun r => r.id == rid)

/-- `clients.get(cid)` lookup. -/
def findClient (s : ServerState) (cid : Nat) : Option Client :=
  s.clients.find? (fun c => c.id == cid)

/-- Write back a mutated room object (JS mutates `rooms[rid]` in place). -/
def setRoom (s : ServerState) (rid : String) (room : Room) : ServerState :=
  { s with rooms := s.rooms.map (fun r => if r.id = rid then room else r) }

/-- Write back a mutated client record (JS mutates the map value in place). -/
def setClient (s : ServerState) (cid : Nat) (c : Client) : ServerState :=
  { s with clients := s.clients.map (fun x => if x.id = cid then c else x) }

/-- `broadcastLobbyList` payload (src/server.js lines 462-470): one
`{id, count, max}` entry per room, over all rooms, in room order. -/
def lobbySnapshot (s : ServerState) : List LobbyInfo :=
  s.rooms.map (fun r => { id := r.id, count := r.players.length, max := r.max })

/-- A spawn point. -/
structure SpawnPoint where
  x : ℚ
  y : ℚ
deriving DecidableEq, Repr

/-- `computeSpawn(side, index)` (src/server.js lines 486-491):
left spawns at `225 + index*40`, right at `900 - index*40`, both at
`GROUND_Y - 24`. -/
def computeSpawn (side : Team) (index : Nat) : SpawnPoint :=
  { x := if side = Team.left then 225 + (index : ℚ) * 40 else 900 - (index : ℚ) * 40,
    y := GROUND_Y - 24 }

/-- `removePlayerFromRoom(playerId, roomId, reason)` (src/server.js lines
494-509): if the room exists and holds the player, delete the roster entry;
if the departing player was host, the new host is the first remaining map
entry (or `null` when none remain); broadcast `playerLeft` to the room and
the lobby list to everyone. -/
def removePlayerFromRoom (s : ServerState) (pid : Nat) (rid : String) (reason : String) :
    ServerState × List Event :=
  match findRoom s rid with
  | none => (s, [])
  | some room =>
      if room.players.any (fun p => p.id == pid) then
        let remaining := room.players.filter (fun p => p.id != pid)
        let newHost : Option Nat :=
          if room.hostId = some pid then remaining.head?.map (fun p => p.id)
          else room.hostId
        let room2 := { room with players := remaining, hostId := newHost }
        let s2 := setRoom s rid room2
        (s2, [Event.roomCast rid (Msg.playerLeft pid reason),
              Event.lobbyCast (lobbySnapshot s2)])
      else (s, [])

/-- The `join` handler (src/server.js lines 653-695).  Order of effects:
room-not-found error, room-full error, removal from a previous room (reason
`'moved'`), then client mutation, roster `Map.set` (append for a new key,
in-place replace for an existing one), host assignment if none, and the
`joined` / `playerJoined` / lobby-list sends.  The assigned team is
`client.side` (`client.side = client.side || 'left'`; `side` is never null
here, defaulting to `left` at connection) — there is no balancing rule. -/
def joinRoom (s : ServerState) (cid : Nat) (rid : String) (name : String) :
    ServerState × List Event :=
  match findClient s cid with
  | none => (s, [])
  | some client =>
    match findRoom s rid with
    | none => (s, [Event.sendTo cid (Msg.errorMsg "Room not found")])
    | some room =>
      if room.max ≤ room.players.length then
        (s, [Event.sendTo cid (Msg.errorMsg "Room full")])
      else
        let moved : ServerState × List Event :=
          match client.roomId with
          | some prev =>
              if prev = rid then (s, [])
              else removePlayerFromRoom s cid prev "moved"
          | none => (s, [])
        let s1 := moved.1
        match findRoom s1 rid with
        | none => (s1, moved.2)
        | some room1 =>
          let side := client.side
          let sideCount := (room1.players.filter (fun p => p.team == side)).length
          let sp := computeSpawn side sideCount
          let client2 := { client with
                           name := name, roomId := some rid,
                           x := sp.x, y := sp.y, vx := 0, vy := 0, onGround := true }
          let entry : PlayerEntry :=
            { id := cid, name := name, team := side, joinedAt := s1.nextStamp }
          let players2 :=
            if room1.players.any (fun p => p.id == cid) then
              room1.players.map (fun p =>
                if p.id = cid then { entry with joinedAt := p.joinedAt } else p)
            else room1.players ++ [entry]
          let host2 := match room1.hostId with | none => some cid | some h => some h
          let room2 := { room1 with players := players2, hostId := host2 }
          let s2 := setRoom (setClient s1 cid client2) rid room2
          let s3 := { s2 with nextStamp := s2.nextStamp + 1 }
          (s3, moved.2 ++
            [Event.sendTo cid (Msg.joinedMsg rid host2 room2.phase players2),
             Event.roomCast rid (Msg.playerJoined cid name side),
             Event.lobbyCast (lobbySnapshot s3)])

/-- The `leave` handler (src/server.js lines 697-706): remove from the
current room with reason `'left'`, clear `client.roomId`, reply `left`,
rebroadcast the lobby list. -/
def leaveRoom (s : ServerState) (cid : Nat) : ServerState × List Event :=
  match findClient s cid with
  | none => (s, [])
  | some client =>
    match client.roomId with
    | none => (s, [])
    | some rid =>
      let step1 := removePlayerFromRoom s cid rid "left"
      let s2 := setClient step1.1 cid { client with roomId := none }
      (s2, step1.2 ++ [Event.sendTo cid (Msg.leftRoom rid),
                       Event.lobbyCast (lobbySnapshot s2)])

/-- The `assignTeam` handler (src/server.js lines 708-734): host-only;
coerces `msg.team` to `left` unless it is exactly `'right'` (here a `Team`
argument); updates the target client's side and the roster entry, then
recomputes the spawn index among the destination team after the update
(`Math.max(0, findIndex)`, with `findIndex = -1` mapped to 0). -/
def assignTeamMsg (s : ServerState) (cid targetId : Nat) (team : Team) :
    ServerState × List Event :=
  match findClient s cid with
  | none => (s, [])
  | some client =>
    match client.roomId with
    | none => (s, [])
    | some rid =>
      match findRoom s rid with
      | none => (s, [])
      | some room =>
        if room.hostId ≠ some cid then
          (s, [Event.sendTo cid (Msg.errorMsg "Only host can assign teams")])
        else
          match findClient s targetId with
          | none => (s, [])
          | some target =>
            if target.roomId ≠ some rid then (s, [])
            else
              let players2 := room.players.map (fun p =>
                if p.id = targetId then { p with team := team } else p)
              let sideIndex :=
                match (players2.filter (fun p => p.team == team)).findIdx?
                        (fun p => p.id == targetId) with
                | some i => i
                | none => 0
              let sp := computeSpawn team sideIndex
              let target2 := { target with
                               side := team, x := sp.x, y := sp.y,
                               vx := 0, vy := 0, onGround := true }
              let s2 := setRoom (setClient s targetId target2) rid
                          { room with players := players2 }
              (s2, [Event.roomCast rid (Msg.playerUpdated targetId target.name team)])

/-- The `kick` handler (src/server.js lines 736-758): host-only; sends
`kicked` to the target, removes it with reason `'kicked'`, closes its
socket, and rebroadcasts the lobby list.  The target's `roomId` field is
not cleared here (its eventual close event clears the record). -/
def kickMsg (s : ServerState) (cid targetId : Nat) : ServerState × List Event :=
  match findClient s cid with
  | none => (s, [])
  | some client =>
    match client.roomId with
    | none => (s, [])
    | some rid =>
      match findRoom s rid with
      | none => (s, [])
      | some room =>
        if room.hostId ≠ some cid then
          (s, [Event.sendTo cid (Msg.errorMsg "Only host can kick")])
        else
          match findClient s targetId with
          | none => (s, [])
          | some target =>
            if target.roomId = some rid then
              let step1 := removePlayerFromRoom s targetId rid "kicked"
              (step1.1,
               [Event.sendTo targetId (Msg.kicked "kicked by host")] ++ step1.2 ++
               [Event.closeConn targetId, Event.lobbyCast (lobbySnapshot step1.1)])
            else (s, [])

/-- Update the physics fields of one client to a spawn point
(`c.x = sp.x; c.y = sp.y; c.vx = 0; c.vy = 0; c.onGround = true`). -/
def setPhys (cs : List Client) (pid : Nat) (sp : SpawnPoint) : List Client :=
  cs.map (fun c =>
    if c.id = pid then { c with x := sp.x, y := sp.y, vx := 0, vy := 0, onGround := true }
    else c)

/-- The roster respawn loop shared by `startGame` (src/server.js lines
774-785) and `resetRound` (lines 517-529): walk the roster in map order,
keeping separate per-side indices; each client found goes to
`computeSpawn(side, index)` of its own side. -/
def respawnAux (cs : List Client) (roster : List PlayerEntry) (li ri : Nat) : List Client :=
  match roster with
  | [] => cs
  | p :: rest =>
    match cs.find? (fun c => c.id == p.id) with
    | none => respawnAux cs rest li ri
    | some c =>
      if c.side = Team.left then
        respawnAux (setPhys cs p.id (computeSpawn Team.left li)) rest (li + 1) ri
      else
        respawnAux (setPhys cs p.id (computeSpawn Team.right ri)) rest li (ri + 1)

/-- Respawn every seated client to its side spawn point. -/
def respawnPlayers (cs : List Client) (roster : List PlayerEntry) : List Client :=
  respawnAux cs roster 0 0

/-- The freshly launched ball of `startGame` and `resetRound`:
`{x: 600, y: 300, vx: (Math.random() < 0.5 ? -1 : 1) * 6, vy: -8}`, with the
random draw passed in as a boolean. -/
def launchBall (rnd : Bool) : Ball :=
  { x := 600, y := 300, vx := (if rnd then -1 else 1) * 6, vy := -8 }

/-- The `startGame` handler (src/server.js lines 760-802): host-only (error
`'Only host can start the game'` otherwise); on success sets
`phase = 'playing'`, `scores = {left: 0, right: 0}`, a freshly launched
ball, respawns every seated client, broadcasts `gameStarted` with the
roster, ball and scores, and rebroadcasts the lobby list.  There is no
roster-size check of any kind. -/
def startGameMsg (s : ServerState) (cid : Nat) (rnd : Bool) : ServerState × List Event :=
  match findClient s cid with
  | none => (s, [])
  | some client =>
    match client.roomId with
    | none => (s, [])
    | some rid =>
      match findRoom s rid with
      | none => (s, [])
      | some room =>
        if room.hostId ≠ some cid then
          (s, [Event.sendTo cid (Msg.errorMsg "Only host can start the game")])
        else
          let room2 := { room with
                         phase := Phase.playing,
                         scores := { left := 0, right := 0 },
                         vb := launchBall rnd }
          let s2 := setRoom { s with clients := respawnPlayers s.clients room.players } rid room2
          (s2, [Event.roomCast rid
                  (Msg.gameStarted room2.players room2.vb room2.scores),
                Event.lobbyCast (lobbySnapshot s2)])

/-- The `hello` handler (src/server.js lines 641-647): store the name and
resend the id and lobby list. -/
def helloMsg (s : ServerState) (cid : Nat) (name : String) : ServerState × List Event :=
  match findClient s cid with
  | none => (s, [])
  | some client =>
    (setClient s cid { client with name := name },
     [Event.sendTo cid (Msg.idAssign cid), Event.lobbyCast (lobbySnapshot s)])

/-- The `input` handler (src/server.js lines 809-818): unconditional
overwrite of the last-write-wins input snapshot. -/
def inputMsg (s : ServerState) (cid : Nat) (inp : InputState) : ServerState × List Event :=
  match findClient s cid with
  | none => (s, [])
  | some client => (setClient s cid { client with input := inp }, [])

/-- A new WebSocket connection (src/server.js lines 611-632): a fresh id, a
default client record (side `left`, grounded at the left spawn, all-false
input), the `id` reply and a lobby-list broadcast. -/
def connectClient (s : ServerState) : ServerState × List Event :=
  let cid := s.nextClientId
  let c : Client := { id := cid, name := "", roomId := none, side := Team.left,
                      x := 225, y := GROUND_Y - 24, vx := 0, vy := 0, onGround := true,
                      input := { left := false, right := false, jump := false } }
  let s2 := { s with clients := s.clients ++ [c], nextClientId := cid + 1 }
  (s2, [Event.sendTo cid (Msg.idAssign cid), Event.lobbyCast (lobbySnapshot s2)])

/-- The socket `close` handler (src/server.js lines 826-836): route through
`removePlayerFromRoom` with reason `'disconnect'` if seated, delete the
client record, and rebroadcast the lobby list. -/
def disconnectClient (s : ServerState) (cid : Nat) : ServerState × List Event :=
  match findClient s cid with
  | none => (s, [])
  | some client =>
    let step1 :=
      match client.roomId with
      | some rid => removePlayerFromRoom s cid rid "disconnect"
      | none => (s, [])
    let s2 := { step1.1 with clients := step1.1.clients.filter (fun c => c.id != cid) }
    (s2, step1.2 ++ [Event.lobbyCast (lobbySnapshot s2)])

/-- One player's physics update inside the tick (src/server.js lines
543-564): horizontal velocity straight from the input flags with `left`
tested first (`if left ... else if right ... else 0`), a `-18` jump impulse
only when `jump` is set and the player is grounded (clearing the grounded
flag), gravity `+1.2`, Euler integration, ground clamp at `GROUND_Y - 24`
(zeroing `vy` and setting grounded), and a final clamp of `x` to
`[40, 1160]`. -/
def playerStep (c : Client) : Client :=
  let speed : ℚ := 8
  let vx : ℚ := if c.input.left then -speed else if c.input.right then speed else 0
  let jumped : Bool := c.input.jump && c.onGround
  let vy0 : ℚ := if jumped then -18 else c.vy
  let og0 : Bool := if jumped then false else c.onGround
  let vy1 := vy0 + 1.2
  let x1 := c.x + vx
  let y1 := c.y + vy1
  let hitGround : Bool := decide (GROUND_Y - 24 ≤ y1)
  let y2 := if hitGround then GROUND_Y - 24 else y1
  let vy2 := if hitGround then 0 else vy1
  let og2 := if hitGround then true else og0
  let x2 := max 40 (min 1160 x1)
  { c with x := x2, y := y2, vx := vx, vy := vy2, onGround := og2 }

/-- The per-tick player loop (src/server.js lines 539-573): walk the roster
in map order, step each client that still has a record, and collect the
rounded state-frame entries. -/
def playersPhase (cs : List Client) (roster : List PlayerEntry) (acc : List StatePlayer) :
    List Client × List StatePlayer :=
  match roster with
  | [] => (cs, acc)
  | p :: rest =>
    match cs.find? (fun c => c.id == p.id) with
    | none => playersPhase cs rest acc
    | some c =>
      let c2 := playerStep c
      playersPhase (cs.map (fun x => if x.id = p.id then c2 else x)) rest
        (acc ++ [{ id := c2.id, name := c2.name, x := round c2.x, y := round c2.y,
                   team := c2.side }])

/-- One room's tick (src/server.js lines 534-607).  Non-playing rooms are
skipped.  Otherwise: the player loop, then the ball: gravity `+1.2`,
integration, and if the ball reached `GROUND_Y - 26` a bounce
(`vy = -vy*0.6`, immediately overwritten), a point for the side opposite the
ball's half (`x < 600` scores right, otherwise left) and a synchronous
`resetRound` (relaunched ball, respawned players); then the net check
(`|x - 600| < 20 && y > 700` damps `vx` by `-0.6` and `vy` by `0.8`,
applied to the possibly-reset ball); finally the `state` broadcast. -/
def roomTick (cs : List Client) (room : Room) (rnd : Bool) : List Client × Room × List Event :=
  if room.phase ≠ Phase.playing then (cs, room, [])
  else
    let pp := playersPhase cs room.players []
    let cs1 := pp.1
    let arr := pp.2
    let vb := room.vb
    let vy1 := vb.vy + 1.2
    let x1 := vb.x + vb.vx
    let y1 := vb.y + vy1
    let afterGround : List Client × Room :=
      if GROUND_Y - 26 ≤ y1 then
        -- vb.y := GROUND_Y - 26 and vb.vy := -vy1 * 0.6 here, but resetRound
        -- immediately overwrites all four ball fields with the launch state
        let scores2 : Scores :=
          if x1 < 600 then { room.scores with right := room.scores.right + 1 }
          else { room.scores with left := room.scores.left + 1 }
        (respawnPlayers cs1 room.players,
         { room with scores := scores2, vb := launchBall rnd })
      else (cs1, { room with vb := { x := x1, y := y1, vx := vb.vx, vy := vy1 } })
    let cs2 := afterGround.1
    let roomA := afterGround.2
    let vb2 := roomA.vb
    let roomB :=
      if |vb2.x - 600| < 20 ∧ 700 < vb2.y then
        { roomA with vb := { vb2 with vx := vb2.vx * (-0.6), vy := vb2.vy * 0.8 } }
      else roomA
    (cs2, roomB,
     [Event.roomCast room.id
        (Msg.stateFrame arr (round roomB.vb.x) (round roomB.vb.y) roomB.scores)])

/-- Tick every room in order, threading the shared `clients` map, as
`Object.values(rooms).forEach` does.  `rnd` supplies the `Math.random()`
draw a room's `resetRound` would consume. -/
def tickRooms (cs : List Client) (rs : List Room) (rnd : String → Bool) :
    List Client × List Room × List Event :=
  match rs with
  | [] => (cs, [], [])
  | room :: rest =>
    let r := roomTick cs room (rnd room.id)
    let t := tickRooms r.1 rest rnd
    (t.1, r.2.1 :: t.2.1, r.2.2 ++ t.2.2)

/-- One firing of the 50 ms interval (src/server.js lines 533-608). -/
def tickStep (s : ServerState) (rnd : String → Bool) : ServerState × List Event :=
  let out := tickRooms s.clients s.rooms rnd
  ({ s with clients := out.1, rooms := out.2.1 }, out.2.2)

/-- An externally triggered server operation: a connection, a client
message, a disconnection, or an interval tick. -/
inductive Op where
  | connect
  | hello (cid : Nat) (name : String)
  | join (cid : Nat) (room : String) (name : String)
  | leave (cid : Nat)
  | assignTeam (cid targetId : Nat) (team : Team)
  | kick (cid targetId : Nat)
  | startGame (cid : Nat) (rnd : Bool)
  | input (cid : Nat) (inp : InputState)
  | tick (rnd : String → Bool)
  | disconnect (cid : Nat)

/-- Dispatch one operation. -/
def applyOp (s : ServerState) (op : Op) : ServerState × List Event :=
  match op with
  | .connect => connectClient s
  | .hello cid name => helloMsg s cid name
  | .join cid rid name => joinRoom s cid rid name
  | .leave cid => leaveRoom s cid
  | .assignTeam cid t team => assignTeamMsg s cid t team
  | .kick cid t => kickMsg s cid t
  | .startGame cid rnd => startGameMsg s cid rnd
  | .input cid inp => inputMsg s cid inp
  | .tick rnd => tickStep s rnd
  | .disconnect cid => disconnectClient s cid

/-- The state part of one operation. -/
def stepOp (s : ServerState) (op : Op) : ServerState := (applyOp s op).1

/-- Run a whole operation sequence from the startup state. -/
def runOps (ops : List Op) : ServerState := ops.foldl stepOp initState

end Volley

namespace Volley

/-- A successful room lookup returns a member with the looked-up id. -/
theorem findRoom_mem {s : ServerState} {rid : String} {room : Room}
    (h : findRoom s rid = some room) : room ∈ s.rooms ∧ room.id = rid := by
  refine ⟨List.mem_of_find?_eq_some h, ?_⟩
  have h2 := List.find?_some h
  simpa using h2

/-- A successful client lookup returns a member with the looked-up id. -/
theorem findClient_mem {s : ServerState} {cid : Nat} {c : Client}
    (h : findClient s cid = some c) : c ∈ s.clients ∧ c.id = cid := by
  refine ⟨List.mem_of_find?_eq_some h, ?_⟩
  have h2 := List.find?_some h
  simpa using h2

/-- Elements of an updated room list: the update or an untouched room. -/
theorem mem_setRoom {s : ServerState} {rid : String} {room2 r : Room}
    (h : r ∈ (setRoom s rid room2).rooms) :
    r = room2 ∨ (r ∈ s.rooms ∧ r.id ≠ rid) := by
  simp only [setRoom, List.mem_map] at h
  obtain ⟨a, ha, hfa⟩ := h
  by_cases hid : a.id = rid
  · left; simp [hid] at hfa; exact hfa.symm
  · right; simp [hid] at hfa; exact ⟨hfa ▸ ha, hfa ▸ hid⟩

/-- Updating a room keeps the id list when the new room keeps the id. -/
theorem roomIds_setRoom {s : ServerState} {rid : String} {room2 : Room}
    (h : room2.id = rid) :
    (setRoom s rid room2).rooms.map Room.id = s.rooms.map Room.id := by
  simp only [setRoom, List.map_map]
  refine List.map_congr_left (fun r _ => ?_)
  by_cases hid : r.id = rid <;> simp [hid, h]

/-- List form: updating the found id rewrites the lookup result. -/
theorem find?_update_eq {rid : String} {room2 : Room} (h2 : room2.id = rid) :
    ∀ l : List Room, (l.find? (fun r => r.id == rid)).isSome = true →
      (l.map (fun r => if r.id = rid then room2 else r)).find? (fun r => r.id == rid)
        = some room2 := by
  intro l
  induction l with
  | nil => simp
  | cons a t ih =>
    intro h
    by_cases hid : a.id = rid
    · simp [hid, h2]
    · simp only [List.map, if_neg hid]
      rw [List.find?_cons_of_neg _ (by simpa using hid)]
      rw [List.find?_cons_of_neg _ (by simpa using hid)] at h
      exact ih h

/-- List form: updating a different id leaves the lookup unchanged. -/
theorem find?_update_ne {rid rid' : String} {room2 : Room}
    (h2 : room2.id = rid') (hne : rid' ≠ rid) :
    ∀ l : List Room,
      (l.map (fun r => if r.id = rid' then room2 else r)).find? (fun r => r.id == rid)
        = l.find? (fun r => r.id == rid) := by
  intro l
  induction l with
  | nil => simp
  | cons a t ih =>
    by_cases hid : a.id = rid'
    · have hnr : ¬ a.id = rid := by rw [hid]; exact hne
      simp only [List.map, if_pos hid]
      rw [List.find?_cons_of_neg _ (by simpa [h2] using hne),
          List.find?_cons_of_neg _ (by simpa using hnr)]
      exact ih
    · simp only [List.map, if_neg hid]
      cases hmatch : (a.id == rid) with
      | true =>
          rw [List.find?_cons_of_pos _ (by simpa using hmatch),
              List.find?_cons_of_pos _ (by simpa using hmatch)]
      | false =>
          rw [List.find?_cons_of_neg _ (by simp [hmatch]),
              List.find?_cons_of_neg _ (by simp [hmatch])]
          exact ih

/-- Looking up the updated id finds the update (when it keeps the id). -/
theorem findRoom_setRoom_self {s : ServerState} {rid : String} {room room2 : Room}
    (h : findRoom s rid = some room) (h2 : room2.id = rid) :
    findRoom (setRoom s rid room2) rid = some room2 := by
  simp only [findRoom, setRoom] at *
  exact find?_update_eq h2 s.rooms (by simp [h])

/-- Updating one room id leaves lookups of other ids unchanged. -/
theorem findRoom_setRoom_ne {s : ServerState} {rid rid' : String} {room2 : Room}
    (h2 : room2.id = rid') (hne : rid' ≠ rid) :
    findRoom (setRoom s rid' room2) rid = findRoom s rid := by
  simp only [findRoom, setRoom]
  exact find?_update_ne h2 hne s.rooms

/-- Elements of an updated client list: the update or an untouched client. -/
theorem mem_setClient {s : ServerState} {cid : Nat} {c2 c : Client}
    (h : c ∈ (setClient s cid c2).clients) :
    c = c2 ∨ (c ∈ s.clients ∧ c.id ≠ cid) := by
  simp only [setClient, List.mem_map] at h
  obtain ⟨a, ha, hfa⟩ := h
  by_cases hid : a.id = cid
  · left; simp [hid] at hfa; exact hfa.symm
  · right; simp [hid] at hfa; exact ⟨hfa ▸ ha, hfa ▸ hid⟩

/-- A client whose id is not the updated one survives a client update. -/
theorem mem_setClient_of_ne {s : ServerState} {cid : Nat} {c2 c : Client}
    (h : c ∈ s.clients) (hne : c.id ≠ cid) : c ∈ (setClient s cid c2).clients := by
  simp only [setClient, List.mem_map]
  exact ⟨c, h, by simp [hne]⟩

/-- If some client has the updated id, the update is in the new list. -/
theorem mem_setClient_self {s : ServerState} {cid : Nat} {c2 c : Client}
    (h : c ∈ s.clients) (hid : c.id = cid) : c2 ∈ (setClient s cid c2).clients := by
  simp only [setClient, List.mem_map]
  exact ⟨c, h, by simp [hid]⟩

/-- Updating a client keeps the id list when the update keeps the id. -/
theorem clientIds_setClient {s : ServerState} {cid : Nat} {c2 : Client}
    (h : c2.id = cid) :
    (setClient s cid c2).clients.map Client.id = s.clients.map Client.id := by
  simp only [setClient, List.map_map]
  refine List.map_congr_left (fun c _ => ?_)
  by_cases hid : c.id = cid <;> simp [hid, h]

/-- A client update does not change the room list. -/
theorem rooms_setClient (s : ServerState) (cid : Nat) (c2 : Client) :
    (setClient s cid c2).rooms = s.rooms := rfl

/-- A room update does not change the client list. -/
theorem clients_setRoom (s : ServerState) (rid : String) (room2 : Room) :
    (setRoom s rid room2).clients = s.clients := rfl

end Volley

namespace Volley

/-- The projection of a client list that seating facts depend on. -/
def shadow (cs : List Client) : List (Nat × Option String) :=
  cs.map (fun c => (c.id, c.roomId))

/-- The id list of a client list. -/
def clientIds (cs : List Client) : List Nat := cs.map Client.id

/-- The projection of a room that roster facts depend on. -/
def roomCore (r : Room) : String × Nat × List PlayerEntry × Phase :=
  (r.id, r.max, r.players, r.phase)

/-- Equal shadows give equal id lists. -/
theorem clientIds_of_shadow {cs cs' : List Client} (h : shadow cs' = shadow cs) :
    clientIds cs' = clientIds cs := by
  have := congrArg (List.map Prod.fst) h
  simpa [shadow, clientIds, List.map_map, Function.comp] using this

/-- Seat witnesses transfer along equal shadows. -/
theorem seatW_of_shadow {cs cs' : List Client} (h : shadow cs' = shadow cs)
    {pid : Nat} {rm : Option String}
    (hw : ∃ c ∈ cs, c.id = pid ∧ c.roomId = rm) :
    ∃ c ∈ cs', c.id = pid ∧ c.roomId = rm := by
  obtain ⟨c, hc, h1, h2⟩ := hw
  have hmem : (pid, rm) ∈ shadow cs' := by
    rw [h]
    exact List.mem_map.mpr ⟨c, hc, by rw [h1, h2]⟩
  obtain ⟨c', hc', hpair⟩ := List.mem_map.mp hmem
  exact ⟨c', hc', congrArg Prod.fst hpair, congrArg Prod.snd hpair⟩

/-- With distinct ids, any member with the looked-up id is the find result. -/
theorem client_unique {cs : List Client} (hnd : (cs.map Client.id).Nodup)
    {pid : Nat} {c : Client} (hf : cs.find? (fun x => x.id == pid) = some c)
    {x : Client} (hx : x ∈ cs) (hid : x.id = pid) : x = c := by
  have hc := List.mem_of_find?_eq_some hf
  have hcid : c.id = pid := by simpa using List.find?_some hf
  exact List.inj_on_of_nodup_map hnd hx hc (by rw [hid, hcid])

/-- Replacing all holders of one id by a record with the same id and room
reference keeps the shadow (under distinct ids there is one holder). -/
theorem shadow_inplace {cs : List Client} {pid : Nat} {c2 : Client}
    (h : ∀ c ∈ cs, c.id = pid → (c2.id = c.id ∧ c2.roomId = c.roomId)) :
    shadow (cs.map (fun x => if x.id = pid then c2 else x)) = shadow cs := by
  simp only [shadow, List.map_map]
  refine List.map_congr_left (fun c hc => ?_)
  by_cases hid : c.id = pid
  · obtain ⟨h1, h2⟩ := h c hc hid
    simp [hid, h1, h2]
  · simp [hid]

/-- `setPhys` only touches physics fields: the shadow is unchanged. -/
theorem shadow_setPhys (cs : List Client) (pid : Nat) (sp : SpawnPoint) :
    shadow (setPhys cs pid sp) = shadow cs := by
  simp only [setPhys, shadow, List.map_map]
  refine List.map_congr_left (fun c _ => ?_)
  by_cases hid : c.id = pid <;> simp [hid]

/-- The respawn loop keeps the shadow. -/
theorem respawnAux_shadow :
    ∀ (roster : List PlayerEntry) (cs : List Client) (li ri : Nat),
      shadow (respawnAux cs roster li ri) = shadow cs := by
  intro roster
  induction roster with
  | nil => intro cs li ri; rfl
  | cons p rest ih =>
    intro cs li ri
    simp only [respawnAux]
    cases hf : cs.find? (fun c => c.id == p.id) with
    | none => exact ih cs li ri
    | some c =>
        by_cases hside : c.side = Team.left
        · simp only [if_pos hside]
          rw [ih, shadow_setPhys]
        · simp only [if_neg hside]
          rw [ih, shadow_setPhys]

/-- `playerStep` keeps id and room reference. -/
theorem playerStep_shadow (c : Client) :
    (playerStep c).id = c.id ∧ (playerStep c).roomId = c.roomId := ⟨rfl, rfl⟩

/-- The per-tick player loop keeps the shadow (ids are distinct). -/
theorem playersPhase_shadow :
    ∀ (roster : List PlayerEntry) (cs : List Client) (acc : List StatePlayer),
      (cs.map Client.id).Nodup →
      shadow (playersPhase cs roster acc).1 = shadow cs := by
  intro roster
  induction roster with
  | nil => intro cs acc _; rfl
  | cons p rest ih =>
    intro cs acc hnd
    simp only [playersPhase]
    cases hf : cs.find? (fun c => c.id == p.id) with
    | none => exact ih cs acc hnd
    | some c =>
        have hstep : shadow (cs.map (fun x => if x.id = p.id then playerStep c else x))
            = shadow cs := by
          refine shadow_inplace (fun x hx hid => ?_)
          have hxc : x = c := client_unique hnd hf hx hid
          subst hxc
          exact ⟨rfl, rfl⟩
        have hids : (cs.map (fun x => if x.id = p.id then playerStep c else x)).map
            Client.id = cs.map Client.id := by
          have h2 := clientIds_of_shadow hstep
          simpa [clientIds] using h2
        have hnd2 : ((cs.map (fun x => if x.id = p.id then playerStep c else x)).map
            Client.id).Nodup := by rw [hids]; exact hnd
        rw [ih _ _ hnd2, hstep]

/-- One room tick keeps the client shadow. -/
theorem roomTick_shadow (cs : List Client) (room : Room) (rnd : Bool)
    (hnd : (cs.map Client.id).Nodup) :
    shadow (roomTick cs room rnd).1 = shadow cs := by
  simp only [roomTick]
  by_cases hp : room.phase ≠ Phase.playing
  · simp [hp]
  · simp only [if_neg hp]
    have h1 := playersPhase_shadow room.players cs [] hnd
    by_cases hg : GROUND_Y - 26 ≤ room.vb.y + (room.vb.vy + 1.2)
    · simp only [if_pos hg, respawnPlayers]
      rw [respawnAux_shadow, h1]
    · simp only [if_neg hg]
      exact h1

/-- One room tick keeps the room core (id, capacity, roster, phase). -/
theorem roomTick_core (cs : List Client) (room : Room) (rnd : Bool) :
    roomCore (roomTick cs room rnd).2.1 = roomCore room := by
  simp only [roomTick]
  by_cases hp : room.phase ≠ Phase.playing
  · simp [hp]
  · simp only [if_neg hp]
    by_cases hg : GROUND_Y - 26 ≤ room.vb.y + (room.vb.vy + 1.2)
    · simp only [if_pos hg]
      split <;> rfl
    · simp only [if_neg hg]
      split <;> rfl

/-- Ticking all rooms keeps the client shadow and every room core. -/
theorem tickRooms_core :
    ∀ (rs : List Room) (cs : List Client) (rnd : String → Bool),
      (cs.map Client.id).Nodup →
      shadow (tickRooms cs rs rnd).1 = shadow cs ∧
      (tickRooms cs rs rnd).2.1.map roomCore = rs.map roomCore := by
  intro rs
  induction rs with
  | nil => intro cs rnd _; exact ⟨rfl, rfl⟩
  | cons room rest ih =>
    intro cs rnd hnd
    simp only [tickRooms]
    have hsh := roomTick_shadow cs room (rnd room.id) hnd
    have hids : (roomTick cs room (rnd room.id)).1.map Client.id = cs.map Client.id := by
      have h2 := clientIds_of_shadow hsh
      simpa [clientIds] using h2
    have hnd2 : ((roomTick cs room (rnd room.id)).1.map Client.id).Nodup := by
      rw [hids]; exact hnd
    obtain ⟨ihs, ihr⟩ := ih (roomTick cs room (rnd room.id)).1 rnd hnd2
    refine ⟨by rw [ihs, hsh], ?_⟩
    simp [ihr, roomTick_core cs room (rnd room.id)]

end Volley

namespace Volley

/-- The room directory is the fixed set of four startup lobbies. -/
def RoomIdsFixed (s : ServerState) : Prop :=
  s.rooms.map Room.id = ["Lobby-1", "Lobby-2", "Lobby-3", "Lobby-4"]

/-- Every roster fits its room's capacity. -/
def SizeOk (s : ServerState) : Prop :=
  ∀ r ∈ s.rooms, r.players.length ≤ r.max

/-- Roster ghost timestamps are strictly increasing in map order and below
the stamp counter. -/
def StampOk (s : ServerState) : Prop :=
  ∀ r ∈ s.rooms, (r.players.map PlayerEntry.joinedAt).Pairwise (· < ·) ∧
    ∀ p ∈ r.players, p.joinedAt < s.nextStamp

/-- Every roster entry is backed by a client record pointing at that room. -/
def SeatOk (s : ServerState) : Prop :=
  ∀ r ∈ s.rooms, ∀ p ∈ r.players, ∃ c ∈ s.clients, c.id = p.id ∧ c.roomId = some r.id

/-- Client ids are distinct and below the fresh-id counter. -/
def ClientsOk (s : ServerState) : Prop :=
  (s.clients.map Client.id).Nodup ∧ ∀ c ∈ s.clients, c.id < s.nextClientId

/-- The reachability invariant of the server. -/
def Inv (s : ServerState) : Prop :=
  RoomIdsFixed s ∧ SizeOk s ∧ StampOk s ∧ SeatOk s ∧ ClientsOk s

/-- The startup state satisfies the invariant. -/
theorem inv_init : Inv initState := by
  refine ⟨rfl, ?_, ?_, ?_, by simp [ClientsOk, initState], by simp [initState]⟩ <;>
  · intro r hr
    simp only [initState, List.mem_cons, List.not_mem_nil, or_false] at hr
    rcases hr with h | h | h | h <;> subst h <;> simp [mkLobby]

/-- Fixed room ids are distinct. -/
theorem roomIds_nodup {s : ServerState} (h : RoomIdsFixed s) :
    (s.rooms.map Room.id).Nodup := by
  rw [h]; decide

/-- With distinct room ids, any member with the looked-up id is the find
result. -/
theorem room_unique {s : ServerState} (hnd : (s.rooms.map Room.id).Nodup)
    {rid : String} {room : Room} (hf : findRoom s rid = some room)
    {r : Room} (hr : r ∈ s.rooms) (hid : r.id = rid) : r = room := by
  have hm := List.mem_of_find?_eq_some hf
  have hmid : room.id = rid := by simpa using List.find?_some hf
  exact List.inj_on_of_nodup_map hnd hr hm (by rw [hid, hmid])

/-- A room id that some member carries is found. -/
theorem findRoom_isSome_of_mem {s : ServerState} {r : Room} (hr : r ∈ s.rooms) :
    (findRoom s r.id).isSome := by
  exact List.find?_isSome.mpr ⟨r, hr, by simp⟩

/-- If a roster holds `cid`, the client record of `cid` points at that room. -/
theorem seated_roomId {s : ServerState} (hs : Inv s) {cid : Nat} {cl : Client}
    (hf : findClient s cid = some cl) {r : Room} (hr : r ∈ s.rooms)
    {p : PlayerEntry} (hp : p ∈ r.players) (hpid : p.id = cid) :
    cl.roomId = some r.id := by
  obtain ⟨c, hc, hcid, hcrm⟩ := hs.2.2.2.1 r hr p hp
  have hceq : c = cl := client_unique hs.2.2.2.2.1 hf hc (by rw [hcid, hpid])
  rw [← hceq, hcrm]

/-- An unseated client is in no roster. -/
theorem not_rostered_of_none {s : ServerState} (hs : Inv s) {cid : Nat} {cl : Client}
    (hf : findClient s cid = some cl) (hrm : cl.roomId = none) :
    ∀ r ∈ s.rooms, ∀ p ∈ r.players, p.id ≠ cid := by
  intro r hr p hp hpid
  have := seated_roomId hs hf hr hp hpid
  rw [hrm] at this
  exact Option.noConfusion this

/-- A seated client is only in rosters of rooms with its room id. -/
theorem rostered_id_eq {s : ServerState} (hs : Inv s) {cid : Nat} {cl : Client}
    (hf : findClient s cid = some cl) {rid0 : String} (hrm : cl.roomId = some rid0) :
    ∀ r ∈ s.rooms, ∀ p ∈ r.players, p.id = cid → r.id = rid0 := by
  intro r hr p hp hpid
  have := seated_roomId hs hf hr hp hpid
  rw [hrm] at this
  exact (Option.some.injEq _ _ ▸ this).symm

/-- A client update that keeps id and room reference keeps the invariant. -/
theorem inv_setClient {s : ServerState} {cid : Nat} {cl c2 : Client}
    (hs : Inv s) (hf : findClient s cid = some cl)
    (hid : c2.id = cid) (hrm : c2.roomId = cl.roomId) :
    Inv (setClient s cid c2) := by
  obtain ⟨h1, h2, h3, h4, h5, h6⟩ := hs
  refine ⟨h1, h2, h3, ?_, ?_, ?_⟩
  · intro r hr p hp
    obtain ⟨c, hc, hcid, hcrm⟩ := h4 r hr p hp
    by_cases hceq : c.id = cid
    · have hccl : c = cl := client_unique h5 hf hc hceq
      refine ⟨c2, mem_setClient_self hc hceq, ?_, ?_⟩
      · rw [hid, ← hceq, hcid]
      · rw [hrm, ← hccl, hcrm]
    · exact ⟨c, mem_setClient_of_ne hc hceq, hcid, hcrm⟩
  · have := clientIds_setClient (s := s) hid
    rw [this]; exact h5
  · intro c hc
    rcases mem_setClient hc with hc2 | ⟨hc3, _⟩
    · rw [hc2, hid]
      have := h6 cl (findClient_mem hf).1
      rw [(findClient_mem hf).2] at this
      exact this
    · exact h6 c hc3

/-- Replacing a found room by one with the same id and capacity and a roster
sublist keeps the invariant. -/
theorem inv_of_setRoom {s : ServerState} {rid : String} {room room2 : Room}
    (hs : Inv s) (hf : findRoom s rid = some room)
    (hid : room2.id = room.id) (hmax : room2.max = room.max)
    (hpl : List.Sublist room2.players room.players) :
    Inv (setRoom s rid room2) := by
  obtain ⟨h1, h2, h3, h4, h5⟩ := hs
  obtain ⟨hrm, hrid⟩ := findRoom_mem hf
  have hid2 : room2.id = rid := by rw [hid, hrid]
  refine ⟨?_, ?_, ?_, ?_, h5⟩
  · unfold RoomIdsFixed at h1 ⊢
    rw [roomIds_setRoom hid2]
    exact h1
  · intro r hr
    rcases mem_setRoom hr with hr2 | ⟨hr3, _⟩
    · rw [hr2, hmax]
      calc room2.players.length ≤ room.players.length := hpl.length_le
        _ ≤ room.max := h2 room hrm
    · exact h2 r hr3
  · intro r hr
    rcases mem_setRoom hr with hr2 | ⟨hr3, _⟩
    · rw [hr2]
      exact ⟨((h3 room hrm).1).sublist (hpl.map _),
             fun p hp => (h3 room hrm).2 p (hpl.mem hp)⟩
    · exact h3 r hr3
  · intro r hr p hp
    rcases mem_setRoom hr with hr2 | ⟨hr3, _⟩
    · subst hr2
      obtain ⟨c, hc, hcid, hcrm⟩ := h4 room hrm p (hpl.mem hp)
      exact ⟨c, hc, hcid, by rw [hcrm, hid]⟩
    · exact h4 r hr3 p hp

/-- `removePlayerFromRoom` keeps the invariant. -/
theorem inv_remove {s : ServerState} (hs : Inv s) (pid : Nat) (rid reason : String) :
    Inv (removePlayerFromRoom s pid rid reason).1 := by
  unfold removePlayerFromRoom
  cases hf : findRoom s rid with
  | none => exact hs
  | some room =>
    by_cases hmem : room.players.any (fun p => p.id == pid)
    · simp only [hmem, if_true]
      exact inv_of_setRoom hs hf rfl rfl (List.filter_sublist _)
    · simp only [hmem, if_false]
      exact hs

/-- After removal from the seated room, the client is in no roster. -/
theorem remove_clears {s : ServerState} (hs : Inv s) {cid : Nat} {cl : Client}
    (hf : findClient s cid = some cl) {rid : String} (hrm : cl.roomId = some rid)
    (reason : String) :
    ∀ r ∈ (removePlayerFromRoom s cid rid reason).1.rooms,
      ∀ p ∈ r.players, p.id ≠ cid := by
  have hnd : (s.rooms.map Room.id).Nodup := roomIds_nodup hs.1
  unfold removePlayerFromRoom
  cases hfr : findRoom s rid with
  | none =>
    intro r hr p hp hpid
    have hid : r.id = rid := rostered_id_eq hs hf hrm r hr p hp hpid
    have hsome := findRoom_isSome_of_mem hr
    rw [hid, hfr] at hsome
    simp at hsome
  | some room =>
    by_cases hmem : room.players.any (fun p => p.id == cid)
    · simp only [hmem, if_true]
      intro r hr p hp hpid
      rcases mem_setRoom hr with hr2 | ⟨hr3, hrne⟩
      · subst hr2
        have hp2 : p ∈ room.players.filter (fun q => q.id != cid) := hp
        have hpf := List.mem_filter.mp hp2
        simp only [bne_iff_ne, ne_eq] at hpf
        exact hpf.2 hpid
      · exact hrne (rostered_id_eq hs hf hrm r hr3 p hp hpid)
    · simp only [hmem, if_false]
      intro r hr p hp hpid
      have hreq : r = room :=
        room_unique hnd hfr hr (rostered_id_eq hs hf hrm r hr p hp hpid)
      subst hreq
      exact absurd (List.any_eq_true.mpr ⟨p, hp, by simpa using hpid⟩) hmem

end Volley

namespace Volley

/-- Removal does not touch the client map. -/
theorem remove_clients (s : ServerState) (pid : Nat) (rid reason : String) :
    (removePlayerFromRoom s pid rid reason).1.clients = s.clients := by
  unfold removePlayerFromRoom
  cases findRoom s rid with
  | none => rfl
  | some room => by_cases hmem : room.players.any (fun p => p.id == pid) <;>
      simp [hmem, setRoom]

/-- Removal does not touch the counters. -/
theorem remove_counters (s : ServerState) (pid : Nat) (rid reason : String) :
    (removePlayerFromRoom s pid rid reason).1.nextClientId = s.nextClientId ∧
    (removePlayerFromRoom s pid rid reason).1.nextStamp = s.nextStamp := by
  unfold removePlayerFromRoom
  cases findRoom s rid with
  | none => exact ⟨rfl, rfl⟩
  | some room => by_cases hmem : room.players.any (fun p => p.id == pid) <;>
      simp [hmem, setRoom]

/-- Extract a matching source room from a room-core equality. -/
theorem core_elim {rs rs' : List Room} (h : rs'.map roomCore = rs.map roomCore)
    {r' : Room} (hr' : r' ∈ rs') :
    ∃ r ∈ rs, r.id = r'.id ∧ r.max = r'.max ∧ r.players = r'.players := by
  have hmem : roomCore r' ∈ rs.map roomCore := by
    rw [← h]; exact List.mem_map_of_mem _ hr'
  obtain ⟨r, hr, hcore⟩ := List.mem_map.mp hmem
  have h1 := congrArg (fun t => t.1) hcore
  have h2 := congrArg (fun t => t.2.1) hcore
  have h3 := congrArg (fun t => t.2.2.1) hcore
  simp only [roomCore] at h1 h2 h3
  exact ⟨r, hr, h1, h2, h3⟩

/-- Id and bound facts transfer along equal client shadows. -/
theorem clientsOk_of_shadow {s : ServerState} {cs' : List Client}
    (h5 : ClientsOk s) (hsh : shadow cs' = shadow s.clients) :
    (cs'.map Client.id).Nodup ∧ ∀ c ∈ cs', c.id < s.nextClientId := by
  have hids : cs'.map Client.id = s.clients.map Client.id := by
    have := clientIds_of_shadow hsh
    simpa [clientIds] using this
  refine ⟨by rw [hids]; exact h5.1, fun c hc => ?_⟩
  have : c.id ∈ s.clients.map Client.id := by
    rw [← hids]; exact List.mem_map_of_mem _ hc
  obtain ⟨c0, hc0, hc0id⟩ := List.mem_map.mp this
  rw [← hc0id]
  exact h5.2 c0 hc0


/-- A connection keeps the invariant. -/
theorem inv_connect {s : ServerState} (hs : Inv s) : Inv (connectClient s).1 := by
  obtain ⟨h1, h2, h3, h4, h5, h6⟩ := hs
  refine ⟨h1, h2, h3, ?_, ?_, ?_⟩
  · intro r hr p hp
    obtain ⟨c, hc, hcid, hcrm⟩ := h4 r hr p hp
    exact ⟨c, List.mem_append_left _ hc, hcid, hcrm⟩
  · simp only [connectClient, List.map_append]
    refine List.Nodup.append h5 (by simp) ?_
    intro a ha hb
    simp only [List.map_cons, List.map_nil, List.mem_singleton] at hb
    obtain ⟨c0, hc0, hc0id⟩ := List.mem_map.mp ha
    have hlt := h6 c0 hc0
    have hb2 : a = s.nextClientId := hb
    omega
  · intro c hc
    simp only [connectClient] at hc ⊢
    rcases List.mem_append.mp hc with hold | hnew
    · have := h6 c hold
      show c.id < s.nextClientId + 1
      omega
    · simp only [List.mem_singleton] at hnew
      subst hnew
      show s.nextClientId < s.nextClientId + 1
      omega

/-- Setting a client record that keeps its id while the client is rostered
nowhere keeps the invariant (the room reference may change freely). -/
theorem inv_setClient_clear {s : ServerState} {cid : Nat} {cl c2 : Client}
    (hs : Inv s) (hf : findClient s cid = some cl) (hid : c2.id = cid)
    (hclear : ∀ r ∈ s.rooms, ∀ p ∈ r.players, p.id ≠ cid) :
    Inv (setClient s cid c2) := by
  obtain ⟨h1, h2, h3, h4, h5, h6⟩ := hs
  refine ⟨h1, h2, h3, ?_, ?_, ?_⟩
  · intro r hr p hp
    obtain ⟨c, hc, hcid, hcrm⟩ := h4 r hr p hp
    have hne : c.id ≠ cid := by rw [hcid]; exact hclear r hr p hp
    exact ⟨c, mem_setClient_of_ne hc hne, hcid, hcrm⟩
  · rw [clientIds_setClient hid]
    exact h5
  · intro c hc
    rcases mem_setClient hc with hc2 | ⟨hc3, _⟩
    · rw [hc2, hid]
      have := h6 cl (findClient_mem hf).1
      rw [(findClient_mem hf).2] at this
      exact this
    · exact h6 c hc3

/-- `hello` keeps the invariant. -/
theorem inv_hello {s : ServerState} (hs : Inv s) (cid : Nat) (name : String) :
    Inv (helloMsg s cid name).1 := by
  unfold helloMsg
  split
  · exact hs
  · rename_i cl hf
    exact inv_setClient hs hf (findClient_mem hf).2 rfl

/-- `input` keeps the invariant. -/
theorem inv_input {s : ServerState} (hs : Inv s) (cid : Nat) (inp : InputState) :
    Inv (inputMsg s cid inp).1 := by
  unfold inputMsg
  split
  · exact hs
  · rename_i cl hf
    exact inv_setClient hs hf (findClient_mem hf).2 rfl

/-- A tick keeps the invariant. -/
theorem inv_tick {s : ServerState} (hs : Inv s) (rnd : String → Bool) :
    Inv (tickStep s rnd).1 := by
  obtain ⟨h1, h2, h3, h4, h5, h6⟩ := hs
  obtain ⟨hsh, hcore⟩ := tickRooms_core s.rooms s.clients rnd h5
  obtain ⟨hnd, hbound⟩ := clientsOk_of_shadow ⟨h5, h6⟩ hsh
  refine ⟨?_, ?_, ?_, ?_, hnd, hbound⟩
  · unfold RoomIdsFixed at h1 ⊢
    have hids := congrArg (List.map (fun t => t.1)) hcore
    simp only [List.map_map] at hids
    calc (tickStep s rnd).1.rooms.map Room.id
        = (tickRooms s.clients s.rooms rnd).2.1.map
            ((fun t => t.1) ∘ roomCore) := rfl
      _ = s.rooms.map ((fun t => t.1) ∘ roomCore) := hids
      _ = s.rooms.map Room.id := rfl
      _ = _ := h1
  · intro r hr
    obtain ⟨r0, hr0, hi, hm, hp⟩ := core_elim hcore hr
    rw [← hm, ← hp]
    exact h2 r0 hr0
  · intro r hr
    obtain ⟨r0, hr0, hi, hm, hp⟩ := core_elim hcore hr
    rw [← hp]
    exact h3 r0 hr0
  · intro r hr p hp
    obtain ⟨r0, hr0, hi, hm, hpl⟩ := core_elim hcore hr
    rw [← hpl] at hp
    obtain ⟨c, hc, hcid, hcrm⟩ := h4 r0 hr0 p hp
    obtain ⟨c', hc', h1', h2'⟩ := seatW_of_shadow hsh ⟨c, hc, hcid, hcrm⟩
    exact ⟨c', hc', h1', by rw [h2', hi]⟩

/-- `leave` keeps the invariant. -/
theorem inv_leave {s : ServerState} (hs : Inv s) (cid : Nat) :
    Inv (leaveRoom s cid).1 := by
  unfold leaveRoom
  split
  · exact hs
  · rename_i cl hf
    split
    · exact hs
    · rename_i rid hrm
      have hs1 := inv_remove hs cid rid "left"
      have hclear := remove_clears hs hf hrm "left"
      have hf1 : findClient (removePlayerFromRoom s cid rid "left").1 cid = some cl := by
        unfold findClient
        rw [remove_clients]
        exact hf
      have hclear1 : ∀ r ∈ (removePlayerFromRoom s cid rid "left").1.rooms,
          ∀ p ∈ r.players, p.id ≠ cid := hclear
      exact inv_setClient_clear hs1 hf1 (findClient_mem hf).2 hclear1

/-- `kick` keeps the invariant. -/
theorem inv_kick {s : ServerState} (hs : Inv s) (cid targetId : Nat) :
    Inv (kickMsg s cid targetId).1 := by
  unfold kickMsg
  split
  · exact hs
  · rename_i cl hf
    split
    · exact hs
    · rename_i rid hrm
      split
      · exact hs
      · rename_i room hfr
        split
        · exact hs
        · split
          · exact hs
          · rename_i target hft
            split
            · exact inv_remove hs targetId rid "kicked"
            · exact hs

/-- Dropping the record of a client who is rostered nowhere keeps the
invariant. -/
theorem inv_drop_client {s1 : ServerState} (hs1 : Inv s1) {cid : Nat}
    (hclear : ∀ r ∈ s1.rooms, ∀ p ∈ r.players, p.id ≠ cid) :
    Inv { s1 with clients := s1.clients.filter (fun c => c.id != cid) } := by
  obtain ⟨h1, h2, h3, h4, h5, h6⟩ := hs1
  refine ⟨h1, h2, h3, ?_, ?_, ?_⟩
  · intro r hr p hp
    obtain ⟨c, hc, hcid, hcrm⟩ := h4 r hr p hp
    have hne : c.id ≠ cid := by rw [hcid]; exact hclear r hr p hp
    exact ⟨c, List.mem_filter.mpr ⟨hc, by simpa using hne⟩, hcid, hcrm⟩
  · exact h5.sublist ((List.filter_sublist _).map _)
  · intro c hc
    exact h6 c (List.mem_of_mem_filter hc)

/-- Disconnection keeps the invariant. -/
theorem inv_disconnect {s : ServerState} (hs : Inv s) (cid : Nat) :
    Inv (disconnectClient s cid).1 := by
  unfold disconnectClient
  split
  · exact hs
  · rename_i cl hf
    split
    · rename_i rid hrm
      exact inv_drop_client (inv_remove hs cid rid "disconnect")
        (remove_clears hs hf hrm "disconnect")
    · rename_i hrm
      exact inv_drop_client hs (not_rostered_of_none hs hf hrm)

/-- Core of `assignTeam`: updating one rostered client together with an
id- and timestamp-preserving roster map keeps the invariant. -/
theorem inv_setRoom_mapRoster {s : ServerState} {rid : String} {room : Room}
    (room2 : Room) (f : PlayerEntry → PlayerEntry)
    (hs : Inv s) (hfr : findRoom s rid = some room)
    {targetId : Nat} {target target2 : Client}
    (hft : findClient s targetId = some target)
    (htrm : target.roomId = some rid)
    (ht2id : target2.id = target.id) (ht2rm : target2.roomId = target.roomId)
    (hfid : ∀ p, (f p).id = p.id) (hfj : ∀ p, (f p).joinedAt = p.joinedAt)
    (hid : room2.id = room.id) (hmax : room2.max = room.max)
    (hpl : room2.players
      = room.players.map (fun p => if p.id = targetId then f p else p)) :
    Inv (setRoom (setClient s targetId target2) rid room2) := by
  obtain ⟨h1, h2, h3, h4, h5, h6⟩ := hs
  obtain ⟨hrm2, hrid⟩ := findRoom_mem hfr
  have htid : target.id = targetId := (findClient_mem hft).2
  have ht2id2 : target2.id = targetId := by rw [ht2id, htid]
  have hid2 : room2.id = rid := by rw [hid, hrid]
  refine ⟨?_, ?_, ?_, ?_, ?_, ?_⟩
  · unfold RoomIdsFixed at h1 ⊢
    rw [roomIds_setRoom hid2]
    exact h1
  · intro r hr
    rcases mem_setRoom hr with hr2 | ⟨hr3, _⟩
    · rw [hr2, hmax, hpl]
      simpa using h2 room hrm2
    · exact h2 r hr3
  · intro r hr
    rcases mem_setRoom hr with hr2 | ⟨hr3, _⟩
    · rw [hr2, hpl]
      have hstamps : ((room.players.map
          (fun p => if p.id = targetId then f p else p)).map
            PlayerEntry.joinedAt) = room.players.map PlayerEntry.joinedAt := by
        rw [List.map_map]
        refine List.map_congr_left (fun p _ => ?_)
        by_cases hp : p.id = targetId <;> simp [hp, hfj]
      refine ⟨by rw [hstamps]; exact (h3 room hrm2).1, ?_⟩
      · intro p hp
        obtain ⟨q, hq, hqe⟩ := List.mem_map.mp hp
        have hje : p.joinedAt = q.joinedAt := by
          by_cases hqt : q.id = targetId
          · rw [← hqe]; simp [hqt, hfj]
          · rw [← hqe]; simp [hqt]
        rw [hje]
        exact (h3 room hrm2).2 q hq
    · exact h3 r hr3
  · intro r hr p hp
    rcases mem_setRoom hr with hr2 | ⟨hr3, hrne⟩
    · subst hr2
      rw [hpl] at hp
      obtain ⟨q, hq, hqe⟩ := List.mem_map.mp hp
      by_cases hqt : q.id = targetId
      · refine ⟨target2, mem_setClient_self (findClient_mem hft).1 htid, ?_, ?_⟩
        · rw [← hqe]
          simp only [hqt, if_true]
          rw [ht2id2, hfid, hqt]
        · rw [ht2rm, htrm, hid2]
      · simp only [hqt, if_false] at hqe
        subst hqe
        obtain ⟨c, hc, hcid, hcrm⟩ := h4 room hrm2 q hq
        have hne : c.id ≠ targetId := by rw [hcid]; exact hqt
        refine ⟨c, mem_setClient_of_ne hc hne, hcid, ?_⟩
        rw [hcrm, hrid, hid2]
    · obtain ⟨c, hc, hcid, hcrm⟩ := h4 r hr3 p hp
      have hpne : p.id ≠ targetId := by
        intro hpt
        exact hrne (rostered_id_eq ⟨h1, h2, h3, h4, h5, h6⟩ hft htrm r hr3 p hp hpt)
      have hne : c.id ≠ targetId := by rw [hcid]; exact hpne
      exact ⟨c, mem_setClient_of_ne hc hne, hcid, hcrm⟩
  · rw [clients_setRoom, clientIds_setClient ht2id2]
    exact h5
  · intro c hc
    rw [clients_setRoom] at hc
    rcases mem_setClient hc with hc2 | ⟨hc3, _⟩
    · rw [hc2, ht2id2, ← htid]
      exact h6 target (findClient_mem hft).1
    · exact h6 c hc3

/-- `assignTeam` keeps the invariant. -/
theorem inv_assignTeam {s : ServerState} (hs : Inv s) (cid targetId : Nat) (team : Team) :
    Inv (assignTeamMsg s cid targetId team).1 := by
  unfold assignTeamMsg
  split
  · exact hs
  · rename_i cl hf
    split
    · exact hs
    · rename_i rid hrm
      split
      · exact hs
      · rename_i room hfr
        split
        · exact hs
        · rename_i hhost
          split
          · exact hs
          · rename_i target hft
            split
            · exact hs
            · rename_i htrm
              rw [not_not] at htrm
              exact inv_setRoom_mapRoster _ (fun p => { p with team := team })
                hs hfr hft htrm rfl rfl (fun p => rfl) (fun p => rfl) rfl rfl rfl

/-- Core of `startGame`: replacing a found room by one with the same id,
capacity and roster while transforming clients shadow-neutrally keeps the
invariant. -/
theorem inv_setRoom_sameRoster {s : ServerState} {rid : String} {room : Room}
    (room2 : Room) (hs : Inv s) (hfr : findRoom s rid = some room)
    (hid : room2.id = room.id) (hmax : room2.max = room.max)
    (hpl : room2.players = room.players)
    {cs2 : List Client} (hsh : shadow cs2 = shadow s.clients) :
    Inv (setRoom { s with clients := cs2 } rid room2) := by
  obtain ⟨h1, h2, h3, h4, h5, h6⟩ := hs
  obtain ⟨hrm2, hrid⟩ := findRoom_mem hfr
  have hid2 : room2.id = rid := by rw [hid, hrid]
  obtain ⟨hnd, hbound⟩ := clientsOk_of_shadow ⟨h5, h6⟩ hsh
  refine ⟨?_, ?_, ?_, ?_, ?_, ?_⟩
  · unfold RoomIdsFixed at h1 ⊢
    rw [roomIds_setRoom hid2]
    exact h1
  · intro r hr
    rcases mem_setRoom hr with hr2 | ⟨hr3, _⟩
    · rw [hr2, hpl, hmax]
      exact h2 room hrm2
    · exact h2 r hr3
  · intro r hr
    rcases mem_setRoom hr with hr2 | ⟨hr3, _⟩
    · rw [hr2, hpl]
      exact h3 room hrm2
    · exact h3 r hr3
  · intro r hr p hp
    rcases mem_setRoom hr with hr2 | ⟨hr3, _⟩
    · subst hr2
      rw [hpl] at hp
      obtain ⟨c, hc, hcid, hcrm⟩ := h4 room hrm2 p hp
      obtain ⟨c', hc', h1', h2'⟩ := seatW_of_shadow hsh ⟨c, hc, hcid, hcrm⟩
      exact ⟨c', hc', h1', by rw [h2', hid]⟩
    · obtain ⟨c, hc, hcid, hcrm⟩ := h4 r hr3 p hp
      obtain ⟨c', hc', h1', h2'⟩ := seatW_of_shadow hsh ⟨c, hc, hcid, hcrm⟩
      exact ⟨c', hc', h1', h2'⟩
  · exact hnd
  · exact hbound

/-- `startGame` keeps the invariant. -/
theorem inv_startGame {s : ServerState} (hs : Inv s) (cid : Nat) (rnd : Bool) :
    Inv (startGameMsg s cid rnd).1 := by
  unfold startGameMsg
  split
  · exact hs
  · rename_i cl hf
    split
    · exact hs
    · rename_i rid hrm
      split
      · exact hs
      · rename_i room hfr
        split
        · exact hs
        · rename_i hhost
          have hsh : shadow (respawnPlayers s.clients room.players)
              = shadow s.clients := by
            unfold respawnPlayers
            exact respawnAux_shadow room.players s.clients 0 0
          exact inv_setRoom_sameRoster
            { room with
              phase := Phase.playing, scores := { left := 0, right := 0 },
              vb := launchBall rnd }
            hs hfr rfl rfl rfl hsh

end Volley

namespace Volley

/-- Removal from a different room id leaves a lookup unchanged. -/
theorem findRoom_remove_ne {s : ServerState} {pid : Nat} {prev rid reason : String}
    (hne : prev ≠ rid) :
    findRoom (removePlayerFromRoom s pid prev reason).1 rid = findRoom s rid := by
  unfold removePlayerFromRoom
  cases hf : findRoom s prev with
  | none => rfl
  | some room =>
    by_cases hmem : room.players.any (fun p => p.id == pid)
    · simp only [hmem, if_true]
      exact findRoom_setRoom_ne (findRoom_mem hf).2 hne
    · simp only [hmem, if_false]
      rfl

/-- Core of a successful `join`: seating a client whose only possible seat is
the destination room keeps the invariant (with the stamp counter bumped). -/
theorem inv_join_core {s1 : ServerState} {rid : String} {room1 : Room} {cid : Nat}
    {client : Client} (client2 : Client) (room2 : Room) (entry : PlayerEntry)
    (hs1 : Inv s1) (hf1 : findClient s1 cid = some client)
    (hfr1 : findRoom s1 rid = some room1)
    (hsize : room1.players.length < room1.max)
    (hclear : ∀ r ∈ s1.rooms, ∀ p ∈ r.players, p.id = cid → r.id = rid)
    (hc2id : client2.id = cid) (hc2rm : client2.roomId = some rid)
    (heid : entry.id = cid) (hestamp : entry.joinedAt = s1.nextStamp)
    (hid : room2.id = room1.id) (hmax : room2.max = room1.max)
    (hpl : room2.players = if room1.players.any (fun p => p.id == cid)
        then room1.players.map (fun p =>
          if p.id = cid then { entry with joinedAt := p.joinedAt } else p)
        else room1.players ++ [entry]) :
    Inv (setRoom (setClient { s1 with nextStamp := s1.nextStamp + 1 } cid client2)
          rid room2) := by
  obtain ⟨h1, h2, h3, h4, h5, h6⟩ := hs1
  have hcl := findClient_mem hf1
  have hro := findRoom_mem hfr1
  have hid2 : room2.id = rid := by rw [hid, hro.2]
  refine ⟨?_, ?_, ?_, ?_, ?_, ?_⟩
  · unfold RoomIdsFixed at h1 ⊢
    rw [roomIds_setRoom hid2]
    exact h1
  · intro r hr
    rcases mem_setRoom hr with hr2 | ⟨hr3, _⟩
    · rw [hr2, hmax, hpl]
      split
      · simpa using h2 room1 hro.1
      · have := h2 room1 hro.1
        simp only [List.length_append, List.length_cons, List.length_nil]
        omega
    · exact h2 r hr3
  · intro r hr
    rcases mem_setRoom hr with hr2 | ⟨hr3, _⟩
    · rw [hr2, hpl]
      split
      · have hstamps : ((room1.players.map (fun p =>
            if p.id = cid then { entry with joinedAt := p.joinedAt } else p)).map
              PlayerEntry.joinedAt) = room1.players.map PlayerEntry.joinedAt := by
          rw [List.map_map]
          refine List.map_congr_left (fun p _ => ?_)
          by_cases hp : p.id = cid <;> simp [hp]
        refine ⟨by rw [hstamps]; exact (h3 room1 hro.1).1, ?_⟩
        intro p hp
        obtain ⟨q, hq, hqe⟩ := List.mem_map.mp hp
        have hje : p.joinedAt = q.joinedAt := by
          by_cases hqt : q.id = cid
          · rw [← hqe]; simp [hqt]
          · rw [← hqe]; simp [hqt]
        rw [hje]
        exact Nat.lt_succ_of_lt ((h3 room1 hro.1).2 q hq)
      · constructor
        · rw [List.map_append]
          rw [List.pairwise_append]
          refine ⟨(h3 room1 hro.1).1, by simp, ?_⟩
          intro a ha b hb
          simp only [List.map_cons, List.map_nil, List.mem_singleton] at hb
          obtain ⟨q, hq, hqe⟩ := List.mem_map.mp ha
          rw [hb, hestamp, ← hqe]
          exact (h3 room1 hro.1).2 q hq
        · intro p hp
          rcases List.mem_append.mp hp with hold | hnew
          · exact Nat.lt_succ_of_lt ((h3 room1 hro.1).2 p hold)
          · simp only [List.mem_singleton] at hnew
            rw [hnew, hestamp]
            exact Nat.lt_succ_self _
    · exact ⟨(h3 r hr3).1, fun p hp => Nat.lt_succ_of_lt ((h3 r hr3).2 p hp)⟩
  · intro r hr p hp
    rcases mem_setRoom hr with hr2 | ⟨hr3, hrne⟩
    · subst hr2
      rw [hpl] at hp
      have hwit2 : ∃ c ∈ (setClient { s1 with nextStamp := s1.nextStamp + 1 }
          cid client2).clients, c.id = cid ∧ c.roomId = some r.id := by
        refine ⟨client2, mem_setClient_self hcl.1 hcl.2, hc2id, ?_⟩
        rw [hc2rm, hid2]
      have hwitq : ∀ q ∈ room1.players, q.id ≠ cid →
          ∃ c ∈ (setClient { s1 with nextStamp := s1.nextStamp + 1 }
            cid client2).clients, c.id = q.id ∧ c.roomId = some r.id := by
        intro q hq hqne
        obtain ⟨c, hc, hcid, hcrm⟩ := h4 room1 hro.1 q hq
        have hne : c.id ≠ cid := by rw [hcid]; exact hqne
        refine ⟨c, mem_setClient_of_ne hc hne, hcid, ?_⟩
        rw [hcrm, hid]
      revert hp
      split
      · intro hp
        obtain ⟨q, hq, hqe⟩ := List.mem_map.mp hp
        by_cases hqt : q.id = cid
        · have hpid : p.id = cid := by
            rw [← hqe]
            simp only [hqt, if_true]
            exact heid
          rw [hpid]
          exact hwit2
        · have hpq : p = q := by rw [← hqe]; simp [hqt]
          rw [hpq]
          exact hwitq q hq hqt
      · intro hp
        rcases List.mem_append.mp hp with hold | hnew
        · rename_i hany
          have hqne : p.id ≠ cid := by
            intro hpc
            exact hany (List.any_eq_true.mpr ⟨p, hold, by simpa using hpc⟩)
          exact hwitq p hold hqne
        · simp only [List.mem_singleton] at hnew
          rw [hnew, heid]
          exact hwit2
    · obtain ⟨c, hc, hcid, hcrm⟩ := h4 r hr3 p hp
      have hpne : p.id ≠ cid := by
        intro hpc
        exact hrne (hclear r hr3 p hp hpc)
      have hne : c.id ≠ cid := by rw [hcid]; exact hpne
      exact ⟨c, mem_setClient_of_ne hc hne, hcid, hcrm⟩
  · rw [clients_setRoom, clientIds_setClient hc2id]
    exact h5
  · intro c hc
    rw [clients_setRoom] at hc
    rcases mem_setClient hc with hc2 | ⟨hc3, _⟩
    · rw [hc2, hc2id, ← hcl.2]
      exact h6 client hcl.1
    · exact h6 c hc3

/-- `join` keeps the invariant. -/
theorem inv_join {s : ServerState} (hs : Inv s) (cid : Nat) (rid name : String) :
    Inv (joinRoom s cid rid name).1 := by
  unfold joinRoom
  split
  · exact hs
  · rename_i client hf
    split
    · exact hs
    · rename_i room hfr
      split
      · exact hs
      · rename_i hcap
        cases hcrm : client.roomId with
        | none =>
          dsimp only
          split
          · exact hs
          · rename_i room1 hfr1
            have hr1r : room1 = room := by
              rw [hfr] at hfr1
              exact (Option.some_inj.mp hfr1).symm
            have hsize : room1.players.length < room1.max := by
              rw [hr1r]; exact not_le.mp hcap
            have hclear : ∀ r ∈ s.rooms, ∀ p ∈ r.players, p.id = cid → r.id = rid :=
              fun r hr p hp hpid => absurd hpid (not_rostered_of_none hs hf hcrm r hr p hp)
            exact inv_join_core _ _ _ hs hf hfr1 hsize hclear
              (findClient_mem hf).2 rfl rfl rfl rfl rfl rfl
        | some prev =>
          by_cases hpr : prev = rid
          · simp only [hpr, if_pos]
            split
            · exact hs
            · rename_i room1 hfr1
              have hr1r : room1 = room := by
                rw [hfr] at hfr1
                exact (Option.some_inj.mp hfr1).symm
              have hsize : room1.players.length < room1.max := by
                rw [hr1r]; exact not_le.mp hcap
              have hclear : ∀ r ∈ s.rooms, ∀ p ∈ r.players, p.id = cid → r.id = rid := by
                rw [← hpr]
                exact rostered_id_eq hs hf hcrm
              exact inv_join_core _ _ _ hs hf hfr1 hsize hclear
                (findClient_mem hf).2 rfl rfl rfl rfl rfl rfl
          · simp only [hpr, if_neg, if_false]
            have hs1 : Inv (removePlayerFromRoom s cid prev "moved").1 :=
              inv_remove hs cid prev "moved"
            have hf1 : findClient (removePlayerFromRoom s cid prev "moved").1 cid
                = some client := by
              unfold findClient
              rw [remove_clients]
              exact hf
            have hclear0 := remove_clears hs hf hcrm "moved"
            split
            · exact hs1
            · rename_i room1 hfr1
              have hfr1s : findRoom s rid = some room1 := by
                rw [← findRoom_remove_ne hpr]
                exact hfr1
              have hr1r : room1 = room := by
                rw [hfr] at hfr1s
                exact (Option.some_inj.mp hfr1s).symm
              have hsize : room1.players.length < room1.max := by
                rw [hr1r]; exact not_le.mp hcap
              have hclear : ∀ r ∈ (removePlayerFromRoom s cid prev "moved").1.rooms,
                  ∀ p ∈ r.players, p.id = cid → r.id = rid :=
                fun r hr p hp hpid => absurd hpid (hclear0 r hr p hp)
              exact inv_join_core _ _ _ hs1 hf1 hfr1 hsize hclear
                (findClient_mem hf).2 rfl rfl rfl rfl rfl rfl

/-- Every operation keeps the invariant. -/
theorem inv_step {s : ServerState} (hs : Inv s) (op : Op) : Inv (stepOp s op) := by
  cases op with
  | connect => exact inv_connect hs
  | hello cid name => exact inv_hello hs cid name
  | join cid rid name => exact inv_join hs cid rid name
  | leave cid => exact inv_leave hs cid
  | assignTeam cid t team => exact inv_assignTeam hs cid t team
  | kick cid t => exact inv_kick hs cid t
  | startGame cid rnd => exact inv_startGame hs cid rnd
  | input cid inp => exact inv_input hs cid inp
  | tick rnd => exact inv_tick hs rnd
  | disconnect cid => exact inv_disconnect hs cid

/-- The invariant holds along any operation sequence. -/
theorem inv_foldl : ∀ (ops : List Op) (s : ServerState), Inv s →
    Inv (ops.foldl stepOp s) := by
  intro ops
  induction ops with
  | nil => intro s hs; exact hs
  | cons op rest ih => intro s hs; exact ih (stepOp s op) (inv_step hs op)

/-- Every reachable state satisfies the invariant. -/
theorem inv_run (ops : List Op) : Inv (runOps ops) := inv_foldl ops initState inv_init

end Volley

set_option allowUnsafeReducibility true in
attribute [semireducible] Rat.add Rat.mul Rat.sub Rat.inv Rat.ofScientific Rat.div

namespace Volley

/-- A fixed draw function for concrete runs (every reset launches right). -/
def noRnd : String → Bool := fun _ => false

/-- Two fresh connections each joining Lobby-1. -/
def opsTwoJoin : List Op :=
  [Op.connect, Op.connect, Op.join 0 "Lobby-1" "a", Op.join 1 "Lobby-1" "b"]

/-- C4 (amended): the room directory is fixed: every reachable state has
exactly the four startup lobbies, and every `lobbyList` snapshot lists
exactly those four ids — rooms are never created on join nor destroyed when
their roster empties. -/
theorem C4_fixed_directory (ops : List Op) :
    (runOps ops).rooms.map Room.id = ["Lobby-1", "Lobby-2", "Lobby-3", "Lobby-4"] ∧
    (lobbySnapshot (runOps ops)).map LobbyInfo.id
      = ["Lobby-1", "Lobby-2", "Lobby-3", "Lobby-4"] := by
  have h1 := (inv_run ops).1
  refine ⟨h1, ?_⟩
  unfold lobbySnapshot
  rw [List.map_map]
  exact h1

/-- C4 counterexample: at startup (after one connection) room Lobby-1
exists with an empty roster and is listed in the directory snapshot; a join
to an unknown id fails with `Room not found` and creates nothing; and after
the last player leaves Lobby-1 it is still listed (with count 0) — refuting
"a room exists only while its roster is non-empty". -/
theorem C4_counterexample :
    (findRoom (runOps [Op.connect]) "Lobby-1").map Room.players = some [] ∧
    lobbySnapshot (runOps [Op.connect]) =
      [⟨"Lobby-1", 0, 4⟩, ⟨"Lobby-2", 0, 4⟩, ⟨"Lobby-3", 0, 4⟩, ⟨"Lobby-4", 0, 4⟩] ∧
    applyOp (runOps [Op.connect]) (Op.join 0 "Lobby-9" "z")
      = (runOps [Op.connect], [Event.sendTo 0 (Msg.errorMsg "Room not found")]) ∧
    lobbySnapshot (runOps [Op.connect, Op.join 0 "Lobby-1" "a", Op.leave 0])
      = [⟨"Lobby-1", 0, 4⟩, ⟨"Lobby-2", 0, 4⟩, ⟨"Lobby-3", 0, 4⟩, ⟨"Lobby-4", 0, 4⟩] := by
  decide

/-- C7 (amended): the player update clamps horizontal position to the court
bounds [40, 1160] only; there is no per-side constraint relative to the
net's x-coordinate. -/
theorem C7_court_clamp_only (c : Client) :
    40 ≤ (playerStep c).x ∧ (playerStep c).x ≤ 1160 := by
  unfold playerStep
  exact ⟨le_max_left _ _, max_le (by norm_num) (min_le_left _ _)⟩

/-- A playing room with one left-side player standing just left of the net
(x = 596) holding the right input. -/
def clientC7 : Client :=
  { id := 0, name := "a", roomId := some "Lobby-1", side := Team.left,
    x := 596, y := GROUND_Y - 24, vx := 0, vy := 0, onGround := true,
    input := { left := false, right := true, jump := false } }

def roomC7 : Room :=
  { id := "Lobby-1", max := 4, players := [⟨0, "a", Team.left, 0⟩], hostId := some 0,
    phase := Phase.playing, scores := ⟨0, 0⟩, vb := ⟨600, 300, 6, -8⟩ }

def stateC7 : ServerState :=
  { rooms := [roomC7, mkLobby "Lobby-2", mkLobby "Lobby-3", mkLobby "Lobby-4"],
    clients := [clientC7], nextClientId := 1, nextStamp := 1 }

/-- C7 counterexample: after one tick the left-side player at x = 596 moving
right stands at x = 604 > 600, i.e. on the opponent's side of the net's
x-coordinate — nothing forces a player back to its own side. -/
theorem C7_counterexample :
    (findClient (tickStep stateC7 noRnd).1 0).map (fun c => (c.side, c.x))
      = some (Team.left, 604) ∧ (600 : ℚ) < 604 := by
  decide

/-- C8 (amended): the tick maps input to horizontal velocity with `left`
taking precedence (`left` pressed gives -8 regardless of `right`; `right`
alone gives 8; neither gives 0 — both pressed gives -8, not 0); the -18
jump impulse is applied exactly when `jump` is set and the player is
grounded, immediately clearing the grounded flag; without a jump the
vertical velocity only gains gravity. -/
theorem C8_input_mapping (c : Client) :
    (playerStep c).vx = (if c.input.left then (-8 : ℚ) else
      if c.input.right then 8 else 0) ∧
    (c.input.jump = true → c.onGround = true → c.y = GROUND_Y - 24 →
      (playerStep c).onGround = false ∧ (playerStep c).vy = -18 + 1.2) ∧
    ((c.input.jump && c.onGround) = false →
      c.y + (c.vy + 1.2) < GROUND_Y - 24 →
      (playerStep c).vy = c.vy + 1.2 ∧ (playerStep c).onGround = c.onGround) := by
  refine ⟨rfl, ?_, ?_⟩
  · intro hj hog hy
    have hjump : (c.input.jump && c.onGround) = true := by rw [hj, hog]; rfl
    have hht : decide (GROUND_Y - 24 ≤ (GROUND_Y - 24) + (-18 + 1.2) : Prop) = false := by
      decide
    unfold playerStep
    simp only [hjump, hy, if_true, if_false, hht]
    exact ⟨rfl, rfl⟩
  · intro hnj hlt
    unfold playerStep
    simp only [hnj, Bool.false_eq_true, if_false]
    have hht : decide (GROUND_Y - 24 ≤ c.y + (c.vy + 1.2) : Prop) = false :=
      decide_eq_false (not_le.mpr hlt)
    simp only [hht, Bool.false_eq_true, if_false]
    constructor <;> first
      | rfl
      | trivial

/-- A grounded player pressing left, right and jump at once. -/
def clientC8 : Client :=
  { id := 0, name := "a", roomId := some "Lobby-1", side := Team.left,
    x := 500, y := GROUND_Y - 24, vx := 0, vy := 0, onGround := true,
    input := { left := true, right := true, jump := true } }

/-- C8 witness: with both direction keys pressed and a grounded jump, the
step yields vx = -8 (left wins), clears the grounded flag, and sets
vy = -18 + 1.2. -/
theorem C8_witness :
    (playerStep clientC8).vx = -8 ∧ (playerStep clientC8).onGround = false ∧
    (playerStep clientC8).vy = -18 + 1.2 := by
  obtain ⟨h1, h2, _⟩ := C8_input_mapping clientC8
  obtain ⟨h3, h4⟩ := h2 rfl rfl rfl
  refine ⟨?_, h3, h4⟩
  rw [h1]
  rfl

/-- C8 counterexample: with both `left` and `right` pressed, the resulting
horizontal velocity is -8, not 0 as claimed. -/
theorem C8_counterexample :
    (playerStep clientC8).vx = -8 ∧ (playerStep clientC8).vx ≠ 0 := by
  decide

/-- C3 (amended): in a playing room, whenever the integrated ball height
reaches the ground threshold, exactly one point goes to the side opposite
the ball's half (x < 600 scores right, otherwise left) and the round resets
synchronously within the same tick: the ball is set to the launch state
(recentred at (600, 300) with velocity (±6, -8), not zeroed) and the
players respawn — there is no scored flag and no delayed reset. -/
theorem C3_ground_scores (cs : List Client) (room : Room) (rnd : Bool)
    (hphase : room.phase = Phase.playing)
    (hg : GROUND_Y - 26 ≤ room.vb.y + (room.vb.vy + 1.2)) :
    (roomTick cs room rnd).2.1.scores = (if room.vb.x + room.vb.vx < 600
        then { room.scores with right := room.scores.right + 1 }
        else { room.scores with left := room.scores.left + 1 }) ∧
    (roomTick cs room rnd).2.1.vb = launchBall rnd ∧
    (roomTick cs room rnd).1
      = respawnPlayers (playersPhase cs room.players []).1 room.players := by
  have hnp : ¬ room.phase ≠ Phase.playing := fun h => h hphase
  have hnet : ¬ (|(launchBall rnd).x - 600| < 20 ∧ 700 < (launchBall rnd).y) := by
    rintro ⟨-, h⟩
    norm_num [launchBall] at h
  simp only [roomTick]
  rw [if_neg hnp, if_pos hg, if_neg hnet]
  exact ⟨rfl, rfl, rfl⟩

/-- A playing room whose ball is about to touch the ground left of the net. -/
def roomC3 : Room :=
  { id := "Lobby-1", max := 4, players := [], hostId := none,
    phase := Phase.playing, scores := ⟨0, 0⟩, vb := ⟨500, 1430, 0, 5⟩ }

/-- C3 witness: the ground contact at x = 500 < 600 gives the right side
one point and relaunches the ball. -/
theorem C3_witness :
    (roomTick [] roomC3 true).2.1.scores = ⟨0, 1⟩ ∧
    (roomTick [] roomC3 true).2.1.vb = launchBall true := by
  obtain ⟨h1, h2, _⟩ := C3_ground_scores [] roomC3 true rfl (by decide)
  refine ⟨?_, h2⟩
  rw [h1]
  decide

/-- C3 counterexample: on ground contact the ball's velocity is not zeroed
and the ball is recentred within the same tick — post-tick the ball is
already back at (600, 300) with the relaunch velocity (6, -8), refuting the
claimed zeroed velocity, `scored` flag and ≈800 ms delayed reset. -/
theorem C3_counterexample :
    (roomTick [] roomC3 false).2.1.vb = ⟨600, 300, 6, -8⟩ ∧
    (roomTick [] roomC3 false).2.1.vb.vx ≠ 0 ∧
    (roomTick [] roomC3 false).2.1.vb.vy ≠ 0 ∧
    (roomTick [] roomC3 false).2.1.scores = ⟨0, 1⟩ := by
  decide

end Volley

namespace Volley

/-- C2 (amended): `startGame` by a non-host fails with the `Only host can
start the game` error and mutates nothing; `startGame` by the host succeeds
for any roster size — including a single player, as no InsufficientPlayers
check exists — setting phase to `playing`, resetting scores to 0-0,
relaunching the ball, and broadcasting `gameStarted` to the room. -/
theorem C2_startGame (s : ServerState) (cid : Nat) (rnd : Bool) (cl : Client)
    (rid : String) (room : Room)
    (hf : findClient s cid = some cl) (hcrm : cl.roomId = some rid)
    (hfr : findRoom s rid = some room) :
    (room.hostId ≠ some cid →
      applyOp s (Op.startGame cid rnd)
        = (s, [Event.sendTo cid (Msg.errorMsg "Only host can start the game")])) ∧
    (room.hostId = some cid →
      ∃ room2, findRoom (applyOp s (Op.startGame cid rnd)).1 rid = some room2 ∧
        room2.phase = Phase.playing ∧ room2.scores = ⟨0, 0⟩ ∧
        room2.vb = launchBall rnd ∧ room2.players = room.players ∧
        (applyOp s (Op.startGame cid rnd)).2
          = [Event.roomCast rid
              (Msg.gameStarted room.players (launchBall rnd) ⟨0, 0⟩),
             Event.lobbyCast (lobbySnapshot (applyOp s (Op.startGame cid rnd)).1)]) := by
  constructor
  · intro hh
    simp only [applyOp, startGameMsg, hf, hcrm, hfr]
    rw [if_pos hh]
  · intro hh
    simp only [applyOp, startGameMsg, hf, hcrm, hfr]
    rw [if_neg (not_not_intro hh)]
    exact ⟨_, findRoom_setRoom_self hfr (findRoom_mem hfr).2, rfl, rfl, rfl, rfl, rfl⟩

/-- One connection joining Lobby-1 alone. -/
def opsOneJoin : List Op := [Op.connect, Op.join 0 "Lobby-1" "a"]

/-- The client record of the lone player after `opsOneJoin`. -/
def clientA : Client :=
  { id := 0, name := "a", roomId := some "Lobby-1", side := Team.left,
    x := 225, y := GROUND_Y - 24, vx := 0, vy := 0, onGround := true,
    input := ⟨false, false, false⟩ }

/-- Lobby-1 after `opsOneJoin`: a single rostered player who is host. -/
def roomA : Room :=
  { id := "Lobby-1", max := 4, players := [⟨0, "a", Team.left, 0⟩],
    hostId := some 0, phase := Phase.lobby, scores := ⟨0, 0⟩,
    vb := ⟨600, 300, 0, 0⟩ }

/-- C2 witness: the host of a one-player room starts the game successfully. -/
theorem C2_witness :
    ∃ room2, findRoom (applyOp (runOps opsOneJoin) (Op.startGame 0 false)).1 "Lobby-1"
        = some room2 ∧
      room2.phase = Phase.playing ∧ room2.scores = ⟨0, 0⟩ ∧
      room2.vb = launchBall false ∧ room2.players = roomA.players ∧
      (applyOp (runOps opsOneJoin) (Op.startGame 0 false)).2
        = [Event.roomCast "Lobby-1"
            (Msg.gameStarted roomA.players (launchBall false) ⟨0, 0⟩),
           Event.lobbyCast (lobbySnapshot
             (applyOp (runOps opsOneJoin) (Op.startGame 0 false)).1)] :=
  (C2_startGame (runOps opsOneJoin) 0 false clientA "Lobby-1" roomA
    (by decide) (by decide) (by decide)).2 (by decide)

/-- C2 counterexample: `startGame` by the host of a room with roster size 1
succeeds — phase becomes `playing`, scores reset, `gameStarted` is
broadcast — instead of failing with InsufficientPlayers as claimed. -/
theorem C2_counterexample :
    (findRoom (runOps (opsOneJoin ++ [Op.startGame 0 false])) "Lobby-1").map
        (fun r => (r.phase, r.scores, r.players.length))
      = some (Phase.playing, (⟨0, 0⟩ : Scores), 1) ∧
    (applyOp (runOps opsOneJoin) (Op.startGame 0 false)).2
      = [Event.roomCast "Lobby-1" (Msg.gameStarted [⟨0, "a", Team.left, 0⟩]
          (launchBall false) ⟨0, 0⟩),
         Event.lobbyCast [⟨"Lobby-1", 1, 4⟩, ⟨"Lobby-2", 0, 4⟩,
           ⟨"Lobby-3", 0, 4⟩, ⟨"Lobby-4", 0, 4⟩]] := by
  decide

/-- C9 (amended): no ball speed maximum is configured and no rescaling is
performed: an airborne tick step away from the net changes the ball's
velocity only by adding the gravity 1.2 to vy, while the position
integrates the old velocity; nothing bounds the resulting speed. -/
theorem C9_no_speed_clamp (cs : List Client) (room : Room) (rnd : Bool)
    (hphase : room.phase = Phase.playing)
    (hair : room.vb.y + (room.vb.vy + 1.2) < GROUND_Y - 26)
    (hnet : ¬ (|room.vb.x + room.vb.vx - 600| < 20 ∧
               700 < room.vb.y + (room.vb.vy + 1.2))) :
    (roomTick cs room rnd).2.1.vb
      = { x := room.vb.x + room.vb.vx, y := room.vb.y + (room.vb.vy + 1.2),
          vx := room.vb.vx, vy := room.vb.vy + 1.2 } := by
  have hnp : ¬ room.phase ≠ Phase.playing := fun h => h hphase
  simp only [roomTick]
  rw [if_neg hnp, if_neg (not_le.mpr hair), if_neg hnet]

/-- A playing room with the ball drifting in mid-air far from the net. -/
def roomC9w : Room :=
  { id := "Lobby-1", max := 4, players := [], hostId := none,
    phase := Phase.playing, scores := ⟨0, 0⟩, vb := ⟨100, 300, 0, 0⟩ }

/-- C9 witness: the airborne step only adds gravity to vy. -/
theorem C9_witness :
    (roomTick [] roomC9w false).2.1.vb = ⟨100, 301.2, 0, 1.2⟩ := by
  have h := C9_no_speed_clamp [] roomC9w false rfl (by decide) (by decide)
  rw [h]
  decide

/-- A playing room whose ball is 48 ticks into the free fall that follows
the launch state (600, 300, 6, -8): position (888, 1327.2), velocity
(6, 49.6). -/
def roomC9 : Room :=
  { id := "Lobby-1", max := 4, players := [], hostId := none,
    phase := Phase.playing, scores := ⟨0, 0⟩, vb := ⟨888, 1327.2, 6, 49.6⟩ }

/-- C9 counterexample: one more tick yields the post-step ball velocity
(6, 50.8), whose squared speed 2616.64 exceeds 2500 — more than five times
the launch speed 10 — with no rescaling anywhere: ball speed is not clamped
to any configured maximum. -/
theorem C9_counterexample :
    (roomTick [] roomC9 false).2.1.vb = ⟨894, 1378, 6, 50.8⟩ ∧
    (2500 : ℚ) < (roomTick [] roomC9 false).2.1.vb.vx ^ 2
      + (roomTick [] roomC9 false).2.1.vb.vy ^ 2 := by
  decide

/-- C5: roster size never exceeds capacity in any reachable state, and a
join to a room whose roster size equals its capacity fails with the `Room
full` error, leaves the whole state unchanged, and emits no close event
(the connection stays open). -/
theorem C5_capacity :
    (∀ ops, ∀ r ∈ (runOps ops).rooms, r.players.length ≤ r.max) ∧
    (∀ s cid rid name cl room, findClient s cid = some cl →
      findRoom s rid = some room → room.players.length = room.max →
      applyOp s (Op.join cid rid name)
        = (s, [Event.sendTo cid (Msg.errorMsg "Room full")])) := by
  constructor
  · intro ops
    exact (inv_run ops).2.1
  · intro s cid rid name cl room hf hfr hfull
    simp only [applyOp, joinRoom, hf, hfr]
    rw [if_pos (le_of_eq hfull.symm)]

/-- Five connections; the first four fill Lobby-1. -/
def opsFull : List Op :=
  [Op.connect, Op.connect, Op.connect, Op.connect, Op.connect,
   Op.join 0 "Lobby-1" "a", Op.join 1 "Lobby-1" "b", Op.join 2 "Lobby-1" "c",
   Op.join 3 "Lobby-1" "d"]

/-- The fifth, still unseated client after `opsFull`. -/
def clientE : Client :=
  { id := 4, name := "", roomId := none, side := Team.left,
    x := 225, y := GROUND_Y - 24, vx := 0, vy := 0, onGround := true,
    input := ⟨false, false, false⟩ }

/-- Lobby-1 at capacity after `opsFull`. -/
def roomFull : Room :=
  { id := "Lobby-1", max := 4,
    players := [⟨0, "a", Team.left, 0⟩, ⟨1, "b", Team.left, 1⟩,
      ⟨2, "c", Team.left, 2⟩, ⟨3, "d", Team.left, 3⟩],
    hostId := some 0, phase := Phase.lobby, scores := ⟨0, 0⟩,
    vb := ⟨600, 300, 0, 0⟩ }

/-- C5 witness: all reachable rosters fit, and the fifth join into the full
Lobby-1 fails with `Room full` leaving the state unchanged. -/
theorem C5_witness :
    (∀ r ∈ (runOps opsFull).rooms, r.players.length ≤ r.max) ∧
    applyOp (runOps opsFull) (Op.join 4 "Lobby-1" "e")
      = (runOps opsFull, [Event.sendTo 4 (Msg.errorMsg "Room full")]) :=
  ⟨C5_capacity.1 opsFull,
   C5_capacity.2 (runOps opsFull) 4 "Lobby-1" "e" clientE roomFull
     (by decide) (by decide) (by decide)⟩

end Volley

namespace Volley

/-- A roster `Map.set` (replace in place for an existing key, append for a
fresh one) leaves an entry with the given id, team and name in the roster. -/
theorem roster_set_entry (l : List PlayerEntry) (cid : Nat) (name : String)
    (side : Team) (st : Nat) :
    ∃ p ∈ (if l.any (fun p => p.id == cid)
        then l.map (fun p => if p.id = cid
          then { id := cid, name := name, team := side, joinedAt := p.joinedAt } else p)
        else l ++ [⟨cid, name, side, st⟩]),
      p.id = cid ∧ p.team = side ∧ p.name = name := by
  by_cases hold : l.any (fun p => p.id == cid)
  · rw [if_pos hold]
    obtain ⟨q, hq, hqid⟩ := List.any_eq_true.mp hold
    refine ⟨{ id := cid, name := name, team := side, joinedAt := q.joinedAt },
      ?_, rfl, rfl, rfl⟩
    have hmem := List.mem_map_of_mem (fun p => if p.id = cid
      then ({ id := cid, name := name, team := side, joinedAt := p.joinedAt } : PlayerEntry)
      else p) hq
    dsimp only at hmem
    rwa [if_pos (by simpa using hqid)] at hmem
  · rw [if_neg hold]
    exact ⟨⟨cid, name, side, st⟩, List.mem_append.mpr (Or.inr (by simp)), rfl, rfl, rfl⟩

/-- C1 (amended): a successful join seats the player on the side stored in
its connection record (`client.side`, default `left`), independent of the
current team sizes — there is no balancing rule. -/
theorem C1_join_assigns_stored_side (s : ServerState) (cid : Nat) (rid name : String)
    (cl : Client) (room : Room)
    (hf : findClient s cid = some cl) (hfr : findRoom s rid = some room)
    (hsize : room.players.length < room.max) :
    ∃ room2, findRoom (applyOp s (Op.join cid rid name)).1 rid = some room2 ∧
      ∃ p ∈ room2.players, p.id = cid ∧ p.team = cl.side ∧ p.name = name := by
  simp only [applyOp, joinRoom, hf, hfr]
  rw [if_neg (not_le.mpr hsize)]
  cases hcrm : cl.roomId with
  | none =>
    dsimp only
    simp only [hfr]
    exact ⟨_, findRoom_setRoom_self hfr (findRoom_mem hfr).2,
      roster_set_entry room.players cid name cl.side s.nextStamp⟩
  | some prev =>
    by_cases hpr : prev = rid
    · simp only [hpr, if_pos]
      simp only [hfr]
      exact ⟨_, findRoom_setRoom_self hfr (findRoom_mem hfr).2,
        roster_set_entry room.players cid name cl.side s.nextStamp⟩
    · simp only [hpr, if_neg, if_false]
      have hfr1 : findRoom (removePlayerFromRoom s cid prev "moved").1 rid
          = some room := by
        rw [findRoom_remove_ne hpr]
        exact hfr
      simp only [hfr1]
      exact ⟨_, findRoom_setRoom_self hfr1 (findRoom_mem hfr1).2,
        roster_set_entry room.players cid name cl.side
          (removePlayerFromRoom s cid prev "moved").1.nextStamp⟩

/-- The default record of the first connected client. -/
def clientFresh : Client :=
  { id := 0, name := "", roomId := none, side := Team.left, x := 225,
    y := GROUND_Y - 24, vx := 0, vy := 0, onGround := true,
    input := ⟨false, false, false⟩ }

/-- C1 witness: the first join into the empty Lobby-1 seats the player on
the connection's stored side (left). -/
theorem C1_witness :
    ∃ room2, findRoom (applyOp (runOps [Op.connect]) (Op.join 0 "Lobby-1" "a")).1
        "Lobby-1" = some room2 ∧
      ∃ p ∈ room2.players, p.id = 0 ∧ p.team = clientFresh.side ∧ p.name = "a" :=
  C1_join_assigns_stored_side (runOps [Op.connect]) 0 "Lobby-1" "a" clientFresh
    (mkLobby "Lobby-1") (by decide) (by decide) (by decide)

/-- C1 counterexample: two fresh clients joining Lobby-1 both land on the
left team — the second join is not balanced onto the emptier right side,
and the team sizes (2 and 0) differ by more than 1. -/
theorem C1_counterexample :
    ((findRoom (runOps opsTwoJoin) "Lobby-1").map
      (fun r => ((r.players.filter (fun p => p.team == Team.left)).length,
                 (r.players.filter (fun p => p.team == Team.right)).length)))
      = some (2, 0) := by
  decide

/-- C6: when the current host is removed from a room, the new host is the
remaining player with the least ghost join timestamp (the earliest-joined,
the head of the join-ordered roster); when no player remains, the host id
is cleared. -/
theorem C6_host_succession (ops : List Op) (pid : Nat) (rid reason : String)
    (room : Room) (hfr : findRoom (runOps ops) rid = some room)
    (hhost : room.hostId = some pid)
    (hmem : room.players.any (fun p => p.id == pid) = true) :
    ∃ room2, findRoom (removePlayerFromRoom (runOps ops) pid rid reason).1 rid
        = some room2 ∧
      room2.players = room.players.filter (fun p => p.id != pid) ∧
      (match (room.players.filter (fun p => p.id != pid)).head? with
       | none => room2.hostId = none
       | some q => room2.hostId = some q.id ∧
           ∀ p ∈ room2.players, q.joinedAt ≤ p.joinedAt) := by
  have hsorted : (room.players.map PlayerEntry.joinedAt).Pairwise (· < ·) :=
    ((inv_run ops).2.2.1 room (findRoom_mem hfr).1).1
  have hsf : ((room.players.filter (fun p => p.id != pid)).map
      PlayerEntry.joinedAt).Pairwise (· < ·) :=
    hsorted.sublist ((List.filter_sublist _).map _)
  unfold removePlayerFromRoom
  simp only [hfr, hmem, if_true]
  rw [if_pos hhost]
  cases hfl : room.players.filter (fun p => p.id != pid) with
  | nil =>
    exact ⟨_, findRoom_setRoom_self hfr (findRoom_mem hfr).2, rfl, by simp⟩
  | cons q t =>
    refine ⟨_, findRoom_setRoom_self hfr (findRoom_mem hfr).2, rfl, rfl, ?_⟩
    intro p hp
    rw [hfl] at hsf
    simp only [List.map_cons] at hsf
    have hlt : ∀ b ∈ List.map PlayerEntry.joinedAt t, q.joinedAt < b :=
      fun b hb => List.rel_of_pairwise_cons hsf hb
    have hp2 : p ∈ q :: t := hp
    rcases List.mem_cons.mp hp2 with hpq | hpt
    · rw [hpq]
    · exact le_of_lt (hlt p.joinedAt (List.mem_map_of_mem _ hpt))

end Volley

namespace Volley

/-- Lobby-1 after `opsTwoJoin`: two players, the first is host. -/
def roomTwo : Room :=
  { id := "Lobby-1", max := 4,
    players := [⟨0, "a", Team.left, 0⟩, ⟨1, "b", Team.left, 1⟩],
    hostId := some 0, phase := Phase.lobby, scores := ⟨0, 0⟩,
    vb := ⟨600, 300, 0, 0⟩ }

/-- C6 witness: removing the host of a two-player room promotes the
earlier-joined remaining player. -/
theorem C6_witness :
    ∃ room2, findRoom (removePlayerFromRoom (runOps opsTwoJoin) 0 "Lobby-1"
        "disconnect").1 "Lobby-1" = some room2 ∧
      room2.players = roomTwo.players.filter (fun p => p.id != 0) ∧
      (match (roomTwo.players.filter (fun p => p.id != 0)).head? with
       | none => room2.hostId = none
       | some q => room2.hostId = some q.id ∧
           ∀ p ∈ room2.players, q.joinedAt ≤ p.joinedAt) :=
  C6_host_succession opsTwoJoin 0 "Lobby-1" "disconnect" roomTwo
    (by decide) (by decide) (by decide)

/-- List form of `mem_setRoom`. -/
theorem mem_roomUpdate {rid : String} {room2 r : Room} {l : List Room}
    (h : r ∈ l.map (fun x => if x.id = rid then room2 else x)) :
    r = room2 ∨ (r ∈ l ∧ r.id ≠ rid) := by
  obtain ⟨a, ha, hfa⟩ := List.mem_map.mp h
  by_cases hid : a.id = rid
  · left
    simp [hid] at hfa
    exact hfa.symm
  · right
    simp [hid] at hfa
    exact ⟨hfa ▸ ha, hfa ▸ hid⟩

/-- A roster `Map.set` leaves some entry carrying the set key. -/
theorem roster_set_mem (l : List PlayerEntry) {cid : Nat} (entry : PlayerEntry)
    (heid : entry.id = cid) :
    ∃ p ∈ (if l.any (fun p => p.id == cid)
        then l.map (fun p => if p.id = cid
          then { entry with joinedAt := p.joinedAt } else p)
        else l ++ [entry]), p.id = cid := by
  by_cases hold : l.any (fun p => p.id == cid)
  · rw [if_pos hold]
    obtain ⟨q, hq, hqid⟩ := List.any_eq_true.mp hold
    refine ⟨{ entry with joinedAt := q.joinedAt }, ?_, heid⟩
    have hmem := List.mem_map_of_mem
      (fun p => if p.id = cid then { entry with joinedAt := p.joinedAt } else p) hq
    dsimp only at hmem
    rwa [if_pos (by simpa using hqid)] at hmem
  · rw [if_neg hold]
    exact ⟨entry, List.mem_append.mpr (Or.inr (by simp)), heid⟩

/-- Removal events when the room holds the player: a `playerLeft` room
broadcast followed by a directory broadcast. -/
theorem remove_events_of_mem {s : ServerState} {pid : Nat} {rid reason : String}
    {room : Room} (hfr : findRoom s rid = some room)
    (hmem : room.players.any (fun p => p.id == pid) = true) :
    (removePlayerFromRoom s pid rid reason).2 =
      [Event.roomCast rid (Msg.playerLeft pid reason),
       Event.lobbyCast (lobbySnapshot (removePlayerFromRoom s pid rid reason).1)] := by
  unfold removePlayerFromRoom
  simp only [hfr, hmem, if_true]

/-- After seating a client whose id was rostered nowhere, its id is in the
destination roster and in no other room's roster. -/
theorem join_seat_iff {s1 : ServerState} {rid : String} {room1 : Room} {cid : Nat}
    (client2 : Client) (room2 : Room) (entry : PlayerEntry)
    (_hfr1 : findRoom s1 rid = some room1)
    (hclear : ∀ r ∈ s1.rooms, ∀ p ∈ r.players, p.id ≠ cid)
    (heid : entry.id = cid)
    (hid : room2.id = rid)
    (hpl : room2.players = if room1.players.any (fun p => p.id == cid)
        then room1.players.map (fun p =>
          if p.id = cid then { entry with joinedAt := p.joinedAt } else p)
        else room1.players ++ [entry]) :
    ∀ r ∈ (setRoom (setClient { s1 with nextStamp := s1.nextStamp + 1 } cid client2)
        rid room2).rooms, ((∃ p ∈ r.players, p.id = cid) ↔ r.id = rid) := by
  intro r hr
  rcases mem_setRoom hr with hR | ⟨hR, hne2⟩
  · subst hR
    constructor
    · intro
      exact hid
    · intro
      rw [hpl]
      exact roster_set_mem room1.players entry heid
  · constructor
    · rintro ⟨p, hp, hpid⟩
      exact absurd hpid (hclear r hR p hp)
    · intro hrid
      exact absurd hrid hne2

/-- C10: (1) in every reachable state a client id appears in at most one
room's roster; (2) a join to a different room issued while seated first
removes the client from the previous room — emitting `playerLeft` with
reason `moved` and a directory snapshot before any seating event — after
which the client's id is in the destination roster and no other. -/
theorem C10_single_seat :
    (∀ ops r1 r2 p1 p2, r1 ∈ (runOps ops).rooms → r2 ∈ (runOps ops).rooms →
      p1 ∈ r1.players → p2 ∈ r2.players → p1.id = p2.id → r1 = r2) ∧
    (∀ s cid rid rid0 name cl room room0, Inv s →
      findClient s cid = some cl → cl.roomId = some rid0 → rid0 ≠ rid →
      findRoom s rid = some room → room.players.length < room.max →
      findRoom s rid0 = some room0 →
      room0.players.any (fun p => p.id == cid) = true →
      (∃ lob1 m1 m2 lob2, (applyOp s (Op.join cid rid name)).2 =
        [Event.roomCast rid0 (Msg.playerLeft cid "moved"), Event.lobbyCast lob1,
         Event.sendTo cid m1, Event.roomCast rid m2, Event.lobbyCast lob2]) ∧
      (∀ r ∈ (applyOp s (Op.join cid rid name)).1.rooms,
        ((∃ p ∈ r.players, p.id = cid) ↔ r.id = rid))) := by
  constructor
  · intro ops r1 r2 p1 p2 hr1 hr2 hp1 hp2 hid
    obtain ⟨hfix, _, _, hseat, hnd, _⟩ := inv_run ops
    obtain ⟨c1, hc1, hc1id, hc1rm⟩ := hseat r1 hr1 p1 hp1
    obtain ⟨c2, hc2, hc2id, hc2rm⟩ := hseat r2 hr2 p2 hp2
    have hceq : c1 = c2 :=
      List.inj_on_of_nodup_map hnd hc1 hc2 (by rw [hc1id, hc2id, hid])
    have hrid : r1.id = r2.id := by
      have hh := hc1rm
      rw [hceq, hc2rm] at hh
      exact (Option.some_inj.mp hh).symm
    exact List.inj_on_of_nodup_map (roomIds_nodup hfix) hr1 hr2 hrid
  · intro s cid rid rid0 name cl room room0 hs hf hcrm hne hfr hsize hfr0 hmem0
    have hclear0 := remove_clears hs hf hcrm "moved"
    have hfr1 : findRoom (removePlayerFromRoom s cid rid0 "moved").1 rid
        = some room := by
      rw [findRoom_remove_ne hne]
      exact hfr
    simp only [applyOp, joinRoom, hf, hfr]
    rw [if_neg (not_le.mpr hsize)]
    simp only [hcrm]
    rw [if_neg hne]
    simp only [hfr1]
    constructor
    · rw [remove_events_of_mem hfr0 hmem0]
      exact ⟨_, _, _, _, rfl⟩
    · exact join_seat_iff
        { cl with
          name := name, roomId := some rid,
          x := (computeSpawn cl.side
            ((room.players.filter (fun p => p.team == cl.side)).length)).x,
          y := (computeSpawn cl.side
            ((room.players.filter (fun p => p.team == cl.side)).length)).y,
          vx := 0, vy := 0, onGround := true }
        { room with
          players := if room.players.any (fun p => p.id == cid)
            then room.players.map (fun p => if p.id = cid
              then { id := cid, name := name, team := cl.side, joinedAt := p.joinedAt }
              else p)
            else room.players ++
              [{ id := cid, name := name, team := cl.side,
                 joinedAt := (removePlayerFromRoom s cid rid0 "moved").1.nextStamp }],
          hostId := match room.hostId with | none => some cid | some h => some h }
        { id := cid, name := name, team := cl.side,
          joinedAt := (removePlayerFromRoom s cid rid0 "moved").1.nextStamp }
        hfr1 hclear0 rfl (findRoom_mem hfr).2 rfl

/-- C10 witness: a seated client joining a second lobby is removed from the
first (with a `moved` broadcast leading the event list) and ends up rostered
only in the second. -/
theorem C10_witness :
    (∃ lob1 m1 m2 lob2,
      (applyOp (runOps opsOneJoin) (Op.join 0 "Lobby-2" "a")).2 =
        [Event.roomCast "Lobby-1" (Msg.playerLeft 0 "moved"), Event.lobbyCast lob1,
         Event.sendTo 0 m1, Event.roomCast "Lobby-2" m2, Event.lobbyCast lob2]) ∧
    (∀ r ∈ (applyOp (runOps opsOneJoin) (Op.join 0 "Lobby-2" "a")).1.rooms,
      ((∃ p ∈ r.players, p.id = 0) ↔ r.id = "Lobby-2")) :=
  C10_single_seat.2 (runOps opsOneJoin) 0 "Lobby-2" "Lobby-1" "a" clientA
    (mkLobby "Lobby-2") roomA (inv_run opsOneJoin) (by decide) (by decide)
    (by decide) (by decide) (by decide) (by decide) (by decide)

end Volley
